import Mathlib

/-!
Shallow embedding of the `jcr82/cursor` personal-AI-assistant service core:
the profile store (`src/models/PersonalData.js`), the relevance search
(`searchRelevantData` / `containsTerms`), the per-session context window
(`updateChatContext` in the chat router), the prompt composer
(`createPersonalizedPrompt`), and the session-aware chat handler
(`router.post('/')` of the chat router).

JSON documents are modelled by the inductive `Json` below; JavaScript's
`JSON.stringify` (compact form, as used by the search), string
`toLowerCase`/`split(' ')`/`includes`, and truthiness are modelled on ASCII
data, which is the alphabet this program manipulates.
-/

namespace Cursor

/-- JS `String.prototype.toLowerCase`, restricted to ASCII (the program's data). -/
def jsLower (s : String) : String :=
  String.mk (s.data.map Char.toLower)

/-- `pat` occurs as a contiguous run inside `text` (JS `String.prototype.includes`),
on character lists. The empty pattern occurs in every text. -/
def containsSub (pat : List Char) : List Char → Bool
  | [] => pat.isEmpty
  | c :: rest => pat.isPrefixOf (c :: rest) || containsSub pat rest

/-- JS `text.includes(pat)`. -/
def strContains (text pat : String) : Bool :=
  containsSub pat.toList text.toList

/-- `PersonalData.containsTerms(text, terms)`:
`terms.some(term => text.includes(term))`. -/
def containsTerms (text : String) (terms : List String) : Bool :=
  terms.any (fun term => strContains text term)

/-- JSON values. Numbers are modelled as integers: every numeric field this
program stores (ages, years, timestamps) is integral. Object fields are kept
in insertion order, as JS objects do for string keys. -/
inductive Json where
  | str (s : String)
  | num (n : Int)
  | bool (b : Bool)
  | null
  | arr (xs : List Json)
  | obj (fields : List (String × Json))

/-- Hex digit for JSON control-character escapes. -/
def hexDigit (n : Nat) : Char :=
  if n < 10 then Char.ofNat (48 + n) else Char.ofNat (87 + n)

/-- JSON string escaping as `JSON.stringify` performs it. -/
def jsonEscapeChar (c : Char) : List Char :=
  if c = '"' then ['\\', '"']
  else if c = '\\' then ['\\', '\\']
  else if c = '\n' then ['\\', 'n']
  else if c = '\t' then ['\\', 't']
  else if c = '\r' then ['\\', 'r']
  else if c = Char.ofNat 8 then ['\\', 'b']
  else if c = Char.ofNat 12 then ['\\', 'f']
  else if c.toNat < 32 then
    ['\\', 'u', '0', '0', hexDigit (c.toNat / 16), hexDigit (c.toNat % 16)]
  else [c]

/-- A JSON string literal: quotes plus escaping. -/
def jsonQuote (s : String) : String :=
  "\"" ++ String.mk (s.toList.flatMap jsonEscapeChar) ++ "\""

mutual

/-- `JSON.stringify` in its compact (no-indent) form, as invoked by
`searchRelevantData` on sections and list entries. -/
def Json.stringify : Json → String
  | .str s => jsonQuote s
  | .num n => toString n
  | .bool b => if b then "true" else "false"
  | .null => "null"
  | .arr xs => "[" ++ stringifyItems xs ++ "]"
  | .obj fs => "\x7b" ++ stringifyFields fs ++ "\x7d"

/-- Comma-separated serialization of array items. -/
def stringifyItems : List Json → String
  | [] => ""
  | [x] => Json.stringify x
  | x :: y :: rest => Json.stringify x ++ "," ++ stringifyItems (y :: rest)

/-- Comma-separated serialization of object fields. -/
def stringifyFields : List (String × Json) → String
  | [] => ""
  | [(k, v)] => jsonQuote k ++ ":" ++ Json.stringify v
  | (k, v) :: f :: rest =>
      jsonQuote k ++ ":" ++ Json.stringify v ++ "," ++ stringifyFields (f :: rest)

end

/-- Property lookup on a JS object: first binding for the key, if any
(well-formed documents in this program never repeat keys). -/
def getField : List (String × Json) → String → Option Json
  | [], _ => none
  | (k, v) :: rest, key => if k = key then some v else getField rest key

/-- Property assignment `o[k] = v` on a JS object: updates the existing
binding in place (keeping its position) or appends a new one. -/
def setField : List (String × Json) → String → Json → List (String × Json)
  | [], key, v => [(key, v)]
  | (k, w) :: rest, key, v =>
      if k = key then (key, v) :: rest else (k, w) :: setField rest key v

/-- JS truthiness of a JSON value: `null`, `false`, `0` and `""` are falsy;
all other values (including `{}` and `[]`) are truthy. -/
def jsTruthy : Json → Bool
  | .str s => s ≠ ""
  | .num n => n ≠ 0
  | .bool b => b
  | .null => false
  | .arr _ => true
  | .obj _ => true

/-- The fields of a JSON object (`[]` for non-objects). -/
def objFields : Json → List (String × Json)
  | .obj fs => fs
  | _ => []

/-! ## Relevance search (`PersonalData.searchRelevantData`) -/

/-- JS `String.prototype.split(' ')` on the character list: cut at every
single space character, keeping empty pieces; the empty string yields
`[""]`. -/
def splitSpace (cur : List Char) : List Char → List String
  | [] => [String.mk cur.reverse]
  | c :: rest =>
    if c = ' ' then String.mk cur.reverse :: splitSpace [] rest
    else splitSpace (c :: cur) rest

/-- `query.toLowerCase().split(' ')`: the search terms. An empty query
yields `[""]`, and consecutive / leading / trailing spaces also contribute
empty terms. -/
def searchTermsOf (query : String) : List String :=
  splitSpace [] (jsLower query).data

/-- The flattened text a unit is matched against:
`JSON.stringify(unit).toLowerCase()`. -/
def unitText (j : Json) : String :=
  jsLower j.stringify

/-- `xs.filter(e => this.containsTerms(JSON.stringify(e).toLowerCase(), terms))`. -/
def filterMatches (terms : List String) (xs : List Json) : List Json :=
  xs.filter (fun e => containsTerms (unitText e) terms)

/-- One list-section step of the search, e.g.
`data.skills?.filter(...)` followed by `if (relevant?.length > 0)`:
an absent or `null` section is skipped by `?.`; a present non-array section
makes `.filter` throw a `TypeError` (modelled as `.error ()`); otherwise the
section is kept exactly when some entry matches. -/
def listSectionSearch (terms : List String) : Option Json → Except Unit (Option Json)
  | none => .ok none
  | some .null => .ok none
  | some (.arr xs) =>
      .ok (if (filterMatches terms xs).length > 0
           then some (.arr (filterMatches terms xs)) else none)
  | some _ => .error ()

/-- A section of the result object, present or absent. -/
def optSection (name : String) : Option Json → List (String × Json)
  | none => []
  | some v => [(name, v)]

/-- The body of `searchRelevantData`, building `relevantData` field by field in
source order (biography, skills, projects, experience, preferences).
`JSON.stringify(data.biography)` is `undefined` when the `biography` key is
absent, so `.toLowerCase()` throws (`.error ()`). `education` and
`socialLinks` are never consulted. -/
def searchCore (query : String) (fields : List (String × Json)) :
    Except Unit (List (String × Json)) :=
  match getField fields "biography" with
  | none => .error ()
  | some bio =>
    match listSectionSearch (searchTermsOf query) (getField fields "skills") with
    | .error e => .error e
    | .ok skills =>
      match listSectionSearch (searchTermsOf query) (getField fields "projects") with
      | .error e => .error e
      | .ok projects =>
        match listSectionSearch (searchTermsOf query) (getField fields "experience") with
        | .error e => .error e
        | .ok experience =>
          .ok ((if containsTerms (unitText bio) (searchTermsOf query)
                then [("biography", bio)] else [])
            ++ optSection "skills" skills
            ++ optSection "projects" projects
            ++ optSection "experience" experience
            ++ optSection "preferences"
                 (match getField fields "preferences" with
                  | some v => if jsTruthy v then some v else none
                  | none => none))

/-- `PersonalData.searchRelevantData(query)` applied to the stored document
`data`. The whole body is wrapped in `try/catch` returning `{}` on any error;
a non-object document (e.g. a failed read yielding `null`) also ends in the
catch via a `TypeError` on property access. -/
def searchRelevantData (query : String) (data : Json) : Json :=
  match data with
  | .obj fields =>
      match searchCore query fields with
      | .ok r => .obj r
      | .error _ => .obj []
  | _ => .obj []

/-! ## Context window (`chatContexts` / `updateChatContext` in the chat router) -/

/-- One conversation turn `{role, content}`. -/
structure Turn where
  role : String
  content : String
  deriving Repr, DecidableEq

/-- The in-memory session map `chatContexts` (a JS `Map`): absent sessions
have no entry. -/
def Ctxs := String → Option (List Turn)

/-- The empty session map (process start). -/
def emptyCtxs : Ctxs := fun _ => none

/-- `chatContexts.get(sessionId) || []` — the view every reader uses. -/
def getContext (m : Ctxs) (sessionId : String) : List Turn :=
  (m sessionId).getD []

/-- `updateChatContext(sessionId, userMessage, aiResponse)`: ensure the
session exists, push the user turn then the assistant turn, and if the
length now exceeds 10 keep only the last 10 (`context.slice(-10)`). -/
def updateChatContext (m : Ctxs) (sessionId userMessage aiResponse : String) : Ctxs :=
  let context := (m sessionId).getD []
  let pushed := context ++ [⟨"user", userMessage⟩, ⟨"assistant", aiResponse⟩]
  let final := if pushed.length > 10 then pushed.drop (pushed.length - 10) else pushed
  fun s => if s = sessionId then some final else m s

/-- A run of `updateChatContext` calls on one session, one per
(user message, assistant reply) exchange. -/
def appendExchanges (m : Ctxs) (sessionId : String) : List (String × String) → Ctxs
  | [] => m
  | (u, a) :: rest => appendExchanges (updateChatContext m sessionId u a) sessionId rest

/-- The two turns one exchange contributes, in push order. -/
def exchangeTurns (p : String × String) : List Turn :=
  [⟨"user", p.1⟩, ⟨"assistant", p.2⟩]

/-- JS `list.slice(-n)` for `n > 0`: the `n` most recent elements
(the whole list when it is shorter than `n`). -/
def lastN (n : Nat) (l : List Turn) : List Turn :=
  l.drop (l.length - n)

/-! ## Prompt composer (`createPersonalizedPrompt` in the chat router)

String interpolation `${v}` is JS `String(v)`; array fields inserted via
`.join` use `Array.prototype.join`, which renders `null` items as `""`.
Property access on a primitive yields `undefined` (rendered "undefined" by
the template), while access on `null` throws — throwing paths are modelled
as `.error ()`. -/

mutual

/-- JS `String(v)` as a template literal renders it. -/
def jsString : Json → String
  | .str s => s
  | .num n => toString n
  | .bool b => cond b "true" "false"
  | .null => "null"
  | .arr xs => jsJoin "," xs
  | .obj _ => "[object Object]"

/-- JS `Array.prototype.join(sep)`. -/
def jsJoin (sep : String) : List Json → String
  | [] => ""
  | [x] => jsJoinElem x
  | x :: y :: rest => jsJoinElem x ++ sep ++ jsJoin sep (y :: rest)

/-- One joined element: `join` renders `null` (and `undefined`) as `""`. -/
def jsJoinElem : Json → String
  | .null => ""
  | .str s => s
  | .num n => toString n
  | .bool b => cond b "true" "false"
  | .arr xs => jsJoin "," xs
  | .obj _ => "[object Object]"

end

/-- Property read `e[k]` where `e` is not `null` (call sites guard):
objects look the key up, primitives and arrays yield `undefined` (`none`)
for the named keys this composer reads. -/
def jsGet (e : Json) (k : String) : Option Json :=
  match e with
  | .obj fs => getField fs k
  | _ => none

/-- `${e[k]}`: interpolation of a possibly-missing property. -/
def jsGetStr (e : Json) (k : String) : String :=
  match jsGet e k with
  | some v => jsString v
  | none => "undefined"

/-- Truthiness of `e[k]`, as the composer's `if (x.f)` guards test it. -/
def jsGetTruthy (e : Json) (k : String) : Bool :=
  match jsGet e k with
  | some v => jsTruthy v
  | none => false

/-- The biography sub-block (never throws: all accesses are on a value the
`if (personalContext.biography)` guard proved truthy, hence non-null). -/
def bioBlock (pc : List (String × Json)) : String :=
  match getField pc "biography" with
  | none => ""
  | some bio =>
    if jsTruthy bio then
      "\nBasic Info:\n"
        ++ "- Name: " ++ jsGetStr bio "name" ++ "\n"
        ++ "- Title: " ++ jsGetStr bio "title" ++ "\n"
        ++ "- Description: " ++ jsGetStr bio "description" ++ "\n"
        ++ (if jsGetTruthy bio "location"
            then "- Location: " ++ jsGetStr bio "location" ++ "\n" else "")
        ++ (if jsGetTruthy bio "background"
            then "- Background: " ++ jsGetStr bio "background" ++ "\n" else "")
    else ""

/-- `forEach` rendering of one skill; a `null` entry throws on `skill.name`. -/
def renderSkill : Json → Except Unit String
  | .null => .error ()
  | e => .ok ("- " ++ jsGetStr e "name" ++ " (" ++ jsGetStr e "proficiency"
      ++ " level, " ++ jsGetStr e "category" ++ ")"
      ++ (if jsGetTruthy e "yearsOfExperience"
          then " - " ++ jsGetStr e "yearsOfExperience" ++ " years experience" else "")
      ++ (if jsGetTruthy e "description" then " - " ++ jsGetStr e "description" else "")
      ++ "\n")

/-- The optional `(Technologies: ...)` fragment of a project line:
`project.technologies.join` throws when `technologies` is truthy but not an
array. -/
def projectTech (e : Json) : Except Unit String :=
  match jsGet e "technologies" with
  | some t =>
    if jsTruthy t then
      (match t with
       | .arr xs => .ok (" (Technologies: " ++ jsJoin ", " xs ++ ")")
       | _ => .error ())
    else .ok ""
  | none => .ok ""

/-- `forEach` rendering of one project. -/
def renderProject : Json → Except Unit String
  | .null => .error ()
  | e =>
    match projectTech e with
    | .error e' => .error e'
    | .ok tech =>
      .ok ("- " ++ jsGetStr e "name" ++ ": " ++ jsGetStr e "description"
        ++ tech ++ " [Status: " ++ jsGetStr e "status" ++ "]\n")

/-- `forEach` rendering of one experience entry. -/
def renderExperience : Json → Except Unit String
  | .null => .error ()
  | e => .ok ("- " ++ jsGetStr e "position" ++ " at " ++ jsGetStr e "company"
      ++ (if jsGetTruthy e "isCurrent" then " (Current)" else "")
      ++ (if jsGetTruthy e "description" then ": " ++ jsGetStr e "description" else "")
      ++ "\n")

/-- Sequential rendering of list entries, propagating a thrown `TypeError`. -/
def renderAll (f : Json → Except Unit String) : List Json → Except Unit String
  | [] => .ok ""
  | e :: rest => do
    let s ← f e
    let t ← renderAll f rest
    .ok (s ++ t)

/-- One guarded list sub-block:
`if (v && v.length > 0) { header; v.slice(0, cap).forEach(render) }`.
`cap = 0` encodes "no slice" (skills iterate the whole list).
A truthy string passes the guard and then throws on `forEach`; other
non-arrays have no `.length`, so `undefined > 0` is false and the block is
skipped. -/
def listBlock (v? : Option Json) (header : String) (cap : Nat)
    (render : Json → Except Unit String) : Except Unit String :=
  match v? with
  | none => .ok ""
  | some v =>
    if jsTruthy v then
      match v with
      | .arr xs =>
        if xs.length > 0 then do
          let body ← renderAll render (if cap = 0 then xs else xs.take cap)
          .ok (header ++ body)
        else .ok ""
      | .str _ => .error ()
      | _ => .ok ""
    else .ok ""

/-- `interests` / `goals`: `if (p.f) ... ${p.f.join(', ')}`; a truthy
non-array throws on `.join`. -/
def joinLine (p : Json) (k : String) (label : String) : Except Unit String :=
  match jsGet p k with
  | none => .ok ""
  | some v =>
    if jsTruthy v then
      match v with
      | .arr xs => .ok (label ++ jsJoin ", " xs ++ "\n")
      | _ => .error ()
    else .ok ""

/-- The preferences sub-block. -/
def preferencesBlock (pc : List (String × Json)) : Except Unit String :=
  match getField pc "preferences" with
  | none => .ok ""
  | some p =>
    if jsTruthy p then do
      let ints ← joinLine p "interests" "- Interests: "
      let goals ← joinLine p "goals" "- Goals: "
      .ok ("\nPreferences & Interests:\n" ++ ints ++ goals
        ++ (if jsGetTruthy p "workStyle"
            then "- Work Style: " ++ jsGetStr p "workStyle" ++ "\n" else ""))
    else .ok ""

/-- The fixed instruction preamble of `createPersonalizedPrompt`. -/
def promptPreamble : String :=
  "You are a helpful AI assistant that answers questions about a specific person based on their personal information. You should respond naturally and conversationally, as if you know this person well.\n\nIMPORTANT INSTRUCTIONS:\n- Always refer to the person in third person (he/she/they) when answering questions about them\n- Use the personal information provided to give specific, accurate answers\n- If asked about something not in the personal data, say you don\x27t have that information\n- Be friendly, professional, and helpful\n- Keep responses concise but informative\n- If no personal context is provided, explain that you need personal data to answer specific questions about the person\n\n"

/-- One rendered history line `role: content`. -/
def renderTurn (t : Turn) : String :=
  t.role ++ ": " ++ t.content ++ "\n"

/-- Sequential `prompt += line` concatenation. -/
def concatAll : List String → String
  | [] => ""
  | s :: rest => s ++ concatAll rest

/-- The "recent conversation" block: rendered only when history is nonempty,
over `conversationHistory.slice(-4)`. -/
def historyBlock (history : List Turn) : String :=
  if history.length > 0 then
    "\nRECENT CONVERSATION HISTORY:\n" ++ concatAll ((lastN 4 history).map renderTurn)
  else ""

/-- The trailing block with the literal user question. -/
def promptTail (userMessage : String) : String :=
  "\nUSER QUESTION: " ++ userMessage
    ++ "\n\nYour response should be helpful and based on the personal information provided above. If the question is about the person and you have relevant information, provide specific details. If you don\x27t have the information, say so politely."

/-- The personal-information super-block, rendered only when
`Object.keys(personalContext).length > 0`, sub-blocks in source order. -/
def personalBlock (pc : List (String × Json)) : Except Unit String :=
  if pc.length > 0 then do
    let sk ← listBlock (getField pc "skills") "\nSkills:\n" 0 renderSkill
    let pr ← listBlock (getField pc "projects") "\nRecent Projects:\n" 5 renderProject
    let ex ← listBlock (getField pc "experience") "\nWork Experience:\n" 3 renderExperience
    let pf ← preferencesBlock pc
    .ok ("PERSONAL INFORMATION ABOUT THE PERSON:\n" ++ bioBlock pc ++ sk ++ pr ++ ex ++ pf)
  else .ok ""

/-- `createPersonalizedPrompt(userMessage, personalContext, conversationHistory)`.
`Object.keys(null)` throws; `Object.keys` of a non-null primitive is `[]`. -/
def createPersonalizedPrompt (userMessage : String) (personalContext : Json)
    (history : List Turn) : Except Unit String :=
  match personalContext with
  | .null => .error ()
  | .obj pc => do
    let personal ← personalBlock pc
    .ok (promptPreamble ++ personal ++ historyBlock history ++ promptTail userMessage)
  | _ => do
    let personal ← personalBlock []
    .ok (promptPreamble ++ personal ++ historyBlock history ++ promptTail userMessage)

/-! ## Chat handler (`router.post('/')` of the chat router) -/

/-- `!process.env.GEMINI_API_KEY || process.env.GEMINI_API_KEY === 'demo-key'`:
the demo-mode test (an unset or empty variable is falsy). -/
def geminiUnconfigured : Option String → Bool
  | none => true
  | some k => k = "" || k = "demo-key"

/-- The demo-mode canned response text (template literal of the route). -/
def demoResponseText (message : String) : String :=
  "Hello! I\x27m your personalized AI assistant. You said: \"" ++ message
    ++ "\". \n        \nTo enable full AI capabilities with personalized responses, please:\n1. Get a free API key from Google AI Studio (https://makersuite.google.com/app/apikey)\n2. Add GEMINI_API_KEY=your_api_key_here to your .env file\n3. Optionally add PERSONAL_DATA_API_KEY=your_secure_key for data protection\n4. Restart the server\n\nYou can still use the personal data management API to add your information!"

/-- The 400 body for a missing/empty message. -/
def badRequestBody : Json :=
  .obj [("error", .str "Bad Request"), ("message", .str "Message is required")]

/-- The demo-mode response body: note it carries `personalDataAvailable`
(not `personalDataUsed`) and no `sessionId` / `contextLength`. -/
def demoBody (message : String) : Json :=
  .obj [("response", .str (demoResponseText message)),
        ("isDemo", .bool true),
        ("personalDataAvailable", .bool false)]

/-- The success response body. -/
def chatOkBody (text sessionId : String) (personalDataUsed : Bool)
    (contextLength : Nat) : Json :=
  .obj [("response", .str text),
        ("sessionId", .str sessionId),
        ("personalDataUsed", .bool personalDataUsed),
        ("contextLength", .num contextLength),
        ("isDemo", .bool false)]

/-- The 500 body (production mode: no `details` field). -/
def internalErrorBody : Json :=
  .obj [("error", .str "Internal Server Error"), ("message", .str "Failed to get AI response")]

/-- The route's catch block, classifying upstream-model failures by
substring of the error message. -/
def classifyChatError (e : String) : Json :=
  if strContains e "API key" then
    .obj [("error", .str "Authentication Error"),
          ("message", .str "Invalid or missing Gemini API key")]
  else if strContains e "quota" || strContains e "rate limit" then
    .obj [("error", .str "Rate Limit Exceeded"),
          ("message", .str "Gemini API rate limit exceeded. Please try again later.")]
  else internalErrorBody

/-- `router.post('/')`: the session-aware chat handler. `geminiKey` is the
environment credential; `llm` is the external model (prompt in, completion or
failure out); `store` is the personal-data document the relevance search
reads; body fields carry their source defaults (`sessionId = 'default'`,
`includePersonalContext = true`). Returns the JSON response body and the
session map after the request. A prompt-composition `TypeError` lands in the
same catch block (its message matches neither credential nor quota patterns,
so it yields the 500 body). -/
def chatPostCore (geminiKey : Option String) (llm : String → Except String String)
    (store : Json) (ctxs : Ctxs)
    (msg : String) (sessionId : Option String) (includePersonalContext : Option Bool) :
    Json × Ctxs :=
  if msg = "" then (badRequestBody, ctxs)
  else if geminiUnconfigured geminiKey then (demoBody msg, ctxs)
  else
    let sid := sessionId.getD "default"
    let inc := includePersonalContext.getD true
    let personalContext : Json := if inc then searchRelevantData msg store else .obj []
    let personalDataAvailable : Bool :=
      inc && decide (0 < (objFields personalContext).length)
    let conversationHistory := getContext ctxs sid
    match createPersonalizedPrompt msg personalContext conversationHistory with
    | .error _ => (internalErrorBody, ctxs)
    | .ok prompt =>
      match llm prompt with
      | .error e => (classifyChatError e, ctxs)
      | .ok text =>
        (chatOkBody text sid personalDataAvailable conversationHistory.length,
         updateChatContext ctxs sid msg text)

def chatPost (geminiKey : Option String) (llm : String → Except String String)
    (store : Json) (ctxs : Ctxs) :
    Option String → Option String → Option Bool → Json × Ctxs
  | none, _, _ => (badRequestBody, ctxs)
  | some msg, sessionId, includePersonalContext =>
    chatPostCore geminiKey llm store ctxs msg sessionId includePersonalContext

/-! ## Profile store (`PersonalData` / `personalDataSchema`)

The Joi schema is modelled at the JSON level, fused with the serialization
that follows every write: `Joi.date()` conversion of an ISO string to a
`Date` followed by `fs.writeJson` reproduces the same string, so date
validation is the identity on the ISO-format strings this program stores
(numeric timestamps are likewise passed through). Validation is abort-early
(`error.details[0]`), messages mirror Joi's, with the path of the offending
field. Unknown keys are rejected (Joi's default), defaults are filled in,
and the validated object keeps the input's key order with defaulted keys
appended. -/

/-- Joi's quoted path label in error messages. -/
def quoted (path : String) : String := "\"" ++ path ++ "\""

/-- Path of a field inside an object. -/
def childPath (path key : String) : String :=
  if path = "" then key else path ++ "." ++ key

/-- Path of an array item. -/
def itemPath (path : String) (i : Nat) : String :=
  path ++ "[" ++ toString i ++ "]"

/-- The root is labelled `value` in Joi messages. -/
def pathLabel (path : String) : String :=
  if path = "" then "value" else path

/-- `Joi.string()`: must be a string, nonempty (Joi default). -/
def vStr (path : String) : Json → Except String Json
  | .str s =>
    if s = "" then .error (quoted path ++ " is not allowed to be empty")
    else .ok (.str s)
  | _ => .error (quoted path ++ " must be a string")

/-- `Joi.number()`: numbers, and numeric strings coerced (`convert`). -/
def vNum (path : String) : Json → Except String Json
  | .num n => .ok (.num n)
  | .str s =>
    match s.toInt? with
    | some n => .ok (.num n)
    | none => .error (quoted path ++ " must be a number")
  | _ => .error (quoted path ++ " must be a number")

/-- `Joi.boolean()`: booleans, and "true"/"false" strings coerced. -/
def vBool (path : String) : Json → Except String Json
  | .bool b => .ok (.bool b)
  | .str s =>
    if s = "true" then .ok (.bool true)
    else if s = "false" then .ok (.bool false)
    else .error (quoted path ++ " must be a boolean")
  | _ => .error (quoted path ++ " must be a boolean")

/-- Recognizer for the date strings this program produces and stores
(ISO-8601 shapes such as "2024-01-02T03:04:05.678Z"): the fragment of JS
date parsing the stored documents exercise. -/
def isIsoDate (s : String) : Bool :=
  s ≠ ""
    && s.toList.all (fun c => c.isDigit || c = '-' || c = ':' || c = '.' || c = 'T' || c = 'Z')
    && s.toList.any Char.isDigit

/-- `Joi.date()` fused with re-serialization: identity on ISO strings and
numeric timestamps, rejection otherwise. -/
def vDate (path : String) : Json → Except String Json
  | .str s =>
    if isIsoDate s then .ok (.str s)
    else .error (quoted path ++ " must be a valid date")
  | .num n => .ok (.num n)
  | _ => .error (quoted path ++ " must be a valid date")

/-- `Joi.string().uri()`, approximated by requiring a scheme separator
(no claim exercises URI syntax details). -/
def vUri (path : String) : Json → Except String Json
  | .str s =>
    if s = "" then .error (quoted path ++ " is not allowed to be empty")
    else if strContains s "://" then .ok (.str s)
    else .error (quoted path ++ " must be a valid uri")
  | _ => .error (quoted path ++ " must be a string")

/-- `Joi.string().valid(...)`: the enumerated sets. -/
def vEnum (vals : List String) (path : String) : Json → Except String Json
  | .str s =>
    if vals.contains s then .ok (.str s)
    else .error (quoted path ++ " must be one of ["
      ++ String.intercalate ", " vals ++ "]")
  | _ => .error (quoted path ++ " must be one of ["
      ++ String.intercalate ", " vals ++ "]")

/-- Items of `Joi.array().items(Joi.string())`. -/
def vStrItems (path : String) : Nat → List Json → Except String (List Json)
  | _, [] => .ok []
  | i, x :: rest => do
    let v ← vStr (itemPath path i) x
    let vs ← vStrItems path (i + 1) rest
    .ok (v :: vs)

/-- `Joi.array().items(Joi.string())`. -/
def vStrArr (path : String) : Json → Except String Json
  | .arr xs => do
    let vs ← vStrItems path 0 xs
    .ok (.arr vs)
  | _ => .error (quoted path ++ " must be an array")

/-- One declared key of a Joi object schema. -/
structure FieldSpec where
  key : String
  required : Bool
  dflt : Option Json
  check : String → Json → Except String Json

/-- Look a present key up among the declared ones. -/
def findSpec (specs : List FieldSpec) (k : String) : Option FieldSpec :=
  specs.find? (fun sp => sp.key == k)

/-- Validate the present fields in input order; an undeclared key is
rejected (`is not allowed`, Joi's default `allowUnknown: false`). -/
def vFields (path : String) (specs : List FieldSpec) :
    List (String × Json) → Except String (List (String × Json))
  | [] => .ok []
  | (k, v) :: rest =>
    match findSpec specs k with
    | none => .error (quoted (childPath path k) ++ " is not allowed")
    | some sp => do
      let v2 ← sp.check (childPath path k) v
      let rest2 ← vFields path specs rest
      .ok ((k, v2) :: rest2)

/-- Missing keys, in schema order: required ones fail, defaulted ones are
materialized, optional ones stay absent. -/
def vMissing (path : String) (present : List (String × Json)) :
    List FieldSpec → Except String (List (String × Json))
  | [] => .ok []
  | sp :: rest =>
    match getField present sp.key with
    | some _ => vMissing path present rest
    | none =>
      if sp.required then .error (quoted (childPath path sp.key) ++ " is required")
      else
        match sp.dflt with
        | some d => do
          let rest2 ← vMissing path present rest
          .ok ((sp.key, d) :: rest2)
        | none => vMissing path present rest

/-- A Joi object schema applied to the fields of an object input. -/
def vObjFields (specs : List FieldSpec) (path : String)
    (fs : List (String × Json)) : Except String Json :=
  match vFields path specs fs with
  | .error e => .error e
  | .ok fs2 =>
    match vMissing path fs specs with
    | .error e => .error e
    | .ok extra => .ok (.obj (fs2 ++ extra))

/-- A Joi object schema over the declared keys. -/
def vObjWith (specs : List FieldSpec) (path : String) : Json → Except String Json
  | .obj fs => vObjFields specs path fs
  | _ => .error (quoted (pathLabel path) ++ " must be of type object")

/-- Items of `Joi.array().items(Joi.object({...}))`. -/
def vObjItems (specs : List FieldSpec) (path : String) :
    Nat → List Json → Except String (List Json)
  | _, [] => .ok []
  | i, x :: rest => do
    let v ← vObjWith specs (itemPath path i) x
    let vs ← vObjItems specs path (i + 1) rest
    .ok (v :: vs)

/-- `Joi.array().items(Joi.object({...}))`. -/
def vArrOf (specs : List FieldSpec) (path : String) : Json → Except String Json
  | .arr xs => do
    let vs ← vObjItems specs path 0 xs
    .ok (.arr vs)
  | _ => .error (quoted path ++ " must be an array")

/-- `proficiency` enumeration (schema line for skills). -/
def proficiencyValues : List String :=
  ["beginner", "intermediate", "advanced", "expert"]

/-- `status` enumeration (schema line for projects). -/
def statusValues : List String :=
  ["completed", "in-progress", "planned", "archived"]

/-- `biography` object schema. -/
def biographySpecs : List FieldSpec := [
  ⟨"name", true, none, vStr⟩, ⟨"title", true, none, vStr⟩,
  ⟨"description", true, none, vStr⟩, ⟨"location", false, none, vStr⟩,
  ⟨"age", false, none, vNum⟩, ⟨"background", false, none, vStr⟩]

/-- `skills` item schema. -/
def skillSpecs : List FieldSpec := [
  ⟨"id", false, none, vStr⟩, ⟨"name", true, none, vStr⟩,
  ⟨"category", true, none, vStr⟩,
  ⟨"proficiency", true, none, vEnum proficiencyValues⟩,
  ⟨"yearsOfExperience", false, none, vNum⟩, ⟨"description", false, none, vStr⟩]

/-- `projects` item schema. -/
def projectSpecs : List FieldSpec := [
  ⟨"id", false, none, vStr⟩, ⟨"name", true, none, vStr⟩,
  ⟨"description", true, none, vStr⟩, ⟨"technologies", false, none, vStrArr⟩,
  ⟨"status", true, none, vEnum statusValues⟩,
  ⟨"startDate", false, none, vDate⟩, ⟨"endDate", false, none, vDate⟩,
  ⟨"repositoryUrl", false, none, vUri⟩, ⟨"demoUrl", false, none, vUri⟩,
  ⟨"role", false, none, vStr⟩, ⟨"achievements", false, none, vStrArr⟩]

/-- `preferences` object schema. -/
def preferenceSpecs : List FieldSpec := [
  ⟨"workStyle", false, none, vStr⟩, ⟨"interests", false, none, vStrArr⟩,
  ⟨"goals", false, none, vStrArr⟩, ⟨"values", false, none, vStrArr⟩,
  ⟨"communicationStyle", false, none, vStr⟩,
  ⟨"preferredTechnologies", false, none, vStrArr⟩]

/-- `socialLinks` item schema (`isPublic` defaults to `true`). -/
def socialLinkSpecs : List FieldSpec := [
  ⟨"id", false, none, vStr⟩, ⟨"platform", true, none, vStr⟩,
  ⟨"url", true, none, vUri⟩, ⟨"username", false, none, vStr⟩,
  ⟨"isPublic", false, some (.bool true), vBool⟩]

/-- `experience` item schema (`isCurrent` defaults to `false`). -/
def experienceSpecs : List FieldSpec := [
  ⟨"id", false, none, vStr⟩, ⟨"company", true, none, vStr⟩,
  ⟨"position", true, none, vStr⟩, ⟨"startDate", true, none, vDate⟩,
  ⟨"endDate", false, none, vDate⟩, ⟨"description", false, none, vStr⟩,
  ⟨"achievements", false, none, vStrArr⟩, ⟨"technologies", false, none, vStrArr⟩,
  ⟨"isCurrent", false, some (.bool false), vBool⟩]

/-- `education` item schema. -/
def educationSpecs : List FieldSpec := [
  ⟨"id", false, none, vStr⟩, ⟨"institution", true, none, vStr⟩,
  ⟨"degree", true, none, vStr⟩, ⟨"field", true, none, vStr⟩,
  ⟨"startDate", false, none, vDate⟩, ⟨"endDate", false, none, vDate⟩,
  ⟨"gpa", false, none, vNum⟩, ⟨"achievements", false, none, vStrArr⟩]

/-- `metadata` object schema; `Date.now` defaults become the numeric
timestamp `nowMillis`. -/
def metadataSpecs (nowMillis : Int) : List FieldSpec := [
  ⟨"createdAt", false, some (.num nowMillis), vDate⟩,
  ⟨"updatedAt", false, some (.num nowMillis), vDate⟩,
  ⟨"version", false, some (.str "1.0.0"), vStr⟩]

/-- `personalDataSchema`: the top-level Joi object, keys in source order. -/
def personalDataSchemaSpecs (nowMillis : Int) : List FieldSpec := [
  ⟨"id", false, none, vStr⟩,
  ⟨"biography", false, none, vObjWith biographySpecs⟩,
  ⟨"skills", false, none, vArrOf skillSpecs⟩,
  ⟨"projects", false, none, vArrOf projectSpecs⟩,
  ⟨"preferences", false, none, vObjWith preferenceSpecs⟩,
  ⟨"socialLinks", false, none, vArrOf socialLinkSpecs⟩,
  ⟨"experience", false, none, vArrOf experienceSpecs⟩,
  ⟨"education", false, none, vArrOf educationSpecs⟩,
  ⟨"metadata", false, none, vObjWith (metadataSpecs nowMillis)⟩]

/-- `personalDataSchema.validate(data)`: abort-early first error or the
converted value. -/
def validateDoc (nowMillis : Int) (doc : Json) : Except String Json :=
  vObjWith (personalDataSchemaSpecs nowMillis) "" doc

/-- `{...skill, id: skill.id || uuidv4()}` for one entry: a present truthy
`id` is re-assigned in place (a no-op), a missing or falsy one consumes the
next uuid of the supply and is appended. Non-object entries cannot survive
validation and pass through. -/
def assignEntry (uuids : Nat → String) (c : Nat) : Json → Json × Nat
  | .obj fs =>
    (match getField fs "id" with
     | some v =>
       if jsTruthy v then (.obj (setField fs "id" v), c)
       else (.obj (setField fs "id" (.str (uuids c))), c + 1)
     | none => (.obj (setField fs "id" (.str (uuids c))), c + 1))
  | j => (j, c)

/-- `.map(entry => ({...entry, id: entry.id || uuidv4()}))`, threading the
uuid supply left to right. -/
def assignIds (uuids : Nat → String) : Nat → List Json → List Json × Nat
  | c, [] => ([], c)
  | c, e :: rest =>
    ((assignEntry uuids c e).1 :: (assignIds uuids (assignEntry uuids c e).2 rest).1,
     (assignIds uuids (assignEntry uuids c e).2 rest).2)

/-- `if (value.sec) value.sec = value.sec.map(...)` for one list section
(validated sections are arrays; an empty array is truthy and maps to
itself). -/
def assignSectionIdsAux (uuids : Nat → String) (name : String)
    (fs : List (String × Json)) (c : Nat) : List (String × Json) × Nat :=
  match getField fs name with
  | some (.arr xs) =>
    (setField fs name (.arr (assignIds uuids c xs).1), (assignIds uuids c xs).2)
  | _ => (fs, c)

/-- The same, on the (document, uuid counter) state the sections fold over. -/
def assignSectionIds (uuids : Nat → String) (name : String)
    (st : List (String × Json) × Nat) : List (String × Json) × Nat :=
  assignSectionIdsAux uuids name st.1 st.2

/-- `value.metadata = {...value.metadata, updatedAt: new Date(), version: "1.0.0"}`:
spread keeps existing key positions, overridden values replace in place;
a missing metadata spreads to `{}`. -/
def stampMetadata (now : String) (doc : List (String × Json)) :
    List (String × Json) :=
  let m := match getField doc "metadata" with
    | some (.obj mfs) => mfs
    | _ => []
  setField doc "metadata"
    (.obj (setField (setField m "updatedAt" (.str now)) "version" (.str "1.0.0")))

/-- `PersonalData.updateData(newData)` against the stored document `store`:
validate (throwing `Validation error: <first detail>` and leaving the store
untouched on failure), assign ids section by section in source order,
stamp the metadata, persist the whole document, and return it. -/
def updateData (nowMillis : Int) (now : String) (uuids : Nat → String)
    (newData : Json) (store : Json) : Except String Json × Json :=
  match validateDoc nowMillis newData with
  | .error msg => (.error ("Validation error: " ++ msg), store)
  | .ok value =>
    match value with
    | .obj vfs =>
      let st2 := ["skills", "projects", "socialLinks", "experience", "education"].foldl
        (fun st n => assignSectionIds uuids n st) (vfs, 0)
      let final := Json.obj (stampMetadata now st2.1)
      (.ok final, final)
    | v => (.ok v, v)

/-- `PersonalData.updateSection(sectionName, sectionData)`: read the current
document, assign the named key (no validation of any kind), set
`metadata.updatedAt`, persist, and return the stored section. Property
assignment on a `null`/missing document or `metadata` throws (store
unchanged); on a primitive or array `metadata` the assignment is silently
dropped (non-strict mode / ignored by JSON serialization). -/
def updateSectionFields (sectionName : String) (sectionData : Json) (now : String)
    (fs : List (String × Json)) : Except String Json × Json :=
  match getField (setField fs sectionName sectionData) "metadata" with
  | some (.obj mfs) =>
    (.ok ((getField (setField (setField fs sectionName sectionData) "metadata"
         (.obj (setField mfs "updatedAt" (.str now)))) sectionName).getD .null),
     .obj (setField (setField fs sectionName sectionData) "metadata"
         (.obj (setField mfs "updatedAt" (.str now)))))
  | some .null => (.error "TypeError", .obj fs)
  | none => (.error "TypeError", .obj fs)
  | some _ =>
    (.ok ((getField (setField fs sectionName sectionData) sectionName).getD .null),
     .obj (setField fs sectionName sectionData))

def updateSection (sectionName : String) (sectionData : Json) (now : String) :
    Json → Except String Json × Json
  | .obj fs => updateSectionFields sectionName sectionData now fs
  | store => (.error "TypeError", store)

/-! ## Claim-side definitions and concrete fixtures -/

/-- Splitting at every whitespace character, keeping empty pieces. -/
def splitWs (cur : List Char) : List Char → List String
  | [] => [String.mk cur.reverse]
  | c :: rest =>
    if c.isWhitespace then String.mk cur.reverse :: splitWs [] rest
    else splitWs (c :: cur) rest

/-- Modelled from the spec's words, for comparison with the code's
`split(' ')` (claim C1): the set of whitespace-delimited tokens of a query —
the nonempty maximal runs between whitespace, lowercased. -/
def specTokens (q : String) : List String :=
  (splitWs [] (jsLower q).data).filter (fun t => t ≠ "")

/-- The metadata fields of a stored document (empty when absent). -/
def metaFields (d : Json) : List (String × Json) :=
  objFields ((getField (objFields d) "metadata").getD (.obj []))

/-- Map a function over the value of one present key (the key set is
unchanged, unlike `setField`). -/
def mapField (pc : List (String × Json)) (k : String) (f : Json → Json) :
    List (String × Json) :=
  pc.map (fun p => if p.1 = k then (p.1, f p.2) else p)

/-- Truncate an array value to its first `cap` entries. -/
def capField (cap : Nat) : Json → Json
  | .arr xs => .arr (xs.take cap)
  | v => v

/-- A personal context with `projects` cut to its first 5 entries and
`experience` to its first 3 — the composer reads nothing beyond these. -/
def truncCaps (pc : List (String × Json)) : List (String × Json) :=
  mapField (mapField pc "projects" (capField 5)) "experience" (capField 3)

/-- A list entry the `forEach` renderers accept (`null` throws on field
access). -/
def entryNotNull : Json → Bool
  | .null => false
  | _ => true

/-- A project entry whose `technologies`, when truthy, is a genuine array
(anything else throws on `.join`). -/
def wfProjectEntry : Json → Bool
  | .null => false
  | .obj fs =>
    (match getField fs "technologies" with
     | some (.arr _) => true
     | some v => !jsTruthy v
     | none => true)
  | _ => true

/-- A section value the guarded list blocks consume without throwing:
absent, falsy, a genuine array of acceptable entries, or a non-string
non-array (skipped, `.length` being `undefined`). -/
def wfSection (v? : Option Json) (wfEntry : Json → Bool) : Bool :=
  match v? with
  | none => true
  | some (.str s) => s = ""
  | some (.arr xs) => xs.all wfEntry
  | some _ => true

/-- `interests`/`goals`-style field safe for `.join`. -/
def joinSafe (p : Json) (k : String) : Bool :=
  match jsGet p k with
  | some (.arr _) => true
  | some v => !jsTruthy v
  | none => true

/-- A `preferences` value the preferences block consumes without throwing. -/
def wfPrefs : Option Json → Bool
  | none => true
  | some p => !jsTruthy p || (joinSafe p "interests" && joinSafe p "goals")

/-- A personal context on which prompt composition cannot throw. -/
def wfPersonalContext (pc : List (String × Json)) : Bool :=
  wfSection (getField pc "skills") entryNotNull
    && wfSection (getField pc "projects") wfProjectEntry
    && wfSection (getField pc "experience") entryNotNull
    && wfPrefs (getField pc "preferences")

/-- Fixture: a biography section. -/
def sampleBio : Json :=
  .obj [("name", .str "Ann"), ("title", .str "Dev"),
        ("description", .str "builds things")]

/-- Fixture: a skill entry. -/
def sampleSkill : Json :=
  .obj [("id", .str "s1"), ("name", .str "React"),
        ("category", .str "programming"), ("proficiency", .str "expert")]

/-- Fixture: a small stored profile document. -/
def sampleStore : Json :=
  .obj [("biography", sampleBio),
        ("skills", .arr [sampleSkill]),
        ("preferences", .obj [("interests", .arr [.str "music"])]),
        ("metadata", .obj [("createdAt", .str "2024-01-02T03:04:05.678Z"),
                           ("updatedAt", .str "2024-01-02T03:04:05.678Z"),
                           ("version", .str "1.0.0")])]

/-- Fixture: a skill entry with an arbitrary proficiency value. -/
def skillDocWith (p : String) : Json :=
  .obj [("skills", .arr [.obj [("name", .str "X"), ("category", .str "c"),
                               ("proficiency", .str p)]])]

/-- Fixture: a skills value with an out-of-enum proficiency. -/
def bogusSkills : Json :=
  .arr [.obj [("name", .str "X"), ("category", .str "c"),
              ("proficiency", .str "bogus")]]

/-- Fixture: a uuid supply. -/
def uuidFix : Nat → String := fun n => "uuid-" ++ toString n

/-- An entry the id-assignment keeps untouched: an object with a truthy
`id` (or a non-object, passed through). -/
def entryHasId : Json → Bool
  | .obj fs =>
    (match getField fs "id" with
     | some v => jsTruthy v
     | none => false)
  | _ => true

/-- A list section whose entries all carry ids (or an absent / non-array
section, which the id-assignment skips). -/
def sectionIdsOk (fs : List (String × Json)) (name : String) : Bool :=
  match getField fs name with
  | some (.arr xs) => xs.all entryHasId
  | _ => true

/-- Every list section of the document already carries entry ids. -/
def docHasIds (doc : Json) : Bool :=
  sectionIdsOk (objFields doc) "skills" && sectionIdsOk (objFields doc) "projects"
    && sectionIdsOk (objFields doc) "socialLinks"
    && sectionIdsOk (objFields doc) "experience"
    && sectionIdsOk (objFields doc) "education"

/-- Fixture: a stored document whose `metadata.version` is not "1.0.0"
(reachable through the unvalidated `updateSection("metadata", ...)`). -/
def versionedStore : Json :=
  .obj [("biography", sampleBio),
        ("skills", .arr [sampleSkill]),
        ("metadata", .obj [("createdAt", .str "2024-01-02T03:04:05.678Z"),
                           ("updatedAt", .str "2024-01-02T03:04:05.678Z"),
                           ("version", .str "2.0.0")])]

/-- Fixture: a stored document with a project whose `technologies` is a
truthy non-array (storable through the unvalidated `updateSection`). -/
def badTechStore : Json :=
  .obj [("biography", sampleBio),
        ("projects", .arr [.obj [("name", .str "P"), ("description", .str "D"),
                                 ("status", .str "completed"),
                                 ("technologies", .num 5)]])]

/-- Fixture: an external model that completes every prompt with "Hi". -/
def fixedLlm : String → Except String String := fun _ => .ok "Hi"

/-- Fixture: a session map holding one prior exchange in session "s1". -/
def preCtxs : Ctxs :=
  updateChatContext emptyCtxs "s1" "hello there" "nice to meet you"

/-- Fixture: six exchanges for the context-cap scenario. -/
def sixExchanges : List (String × String) :=
  [("u1", "a1"), ("u2", "a2"), ("u3", "a3"), ("u4", "a4"), ("u5", "a5"), ("u6", "a6")]

/-- The turns a run of exchanges pushes, in order. -/
def exchangeList : List (String × String) → List Turn
  | [] => []
  | p :: rest => exchangeTurns p ++ exchangeList rest

/-- Fixture: the prompt the success-path witness run composes. -/
def samplePrompt : String :=
  match createPersonalizedPrompt "hi" (searchRelevantData "hi" sampleStore)
      (getContext preCtxs "s1") with
  | .ok s => s
  | .error _ => ""

/-! ## Helper lemmas -/

theorem getField_append (xs ys : List (String × Json)) (k : String) :
    getField (xs ++ ys) k =
      match getField xs k with
      | some v => some v
      | none => getField ys k := by
  induction xs with
  | nil => simp [getField]
  | cons p rest ih =>
    by_cases h : p.1 = k <;> simp [getField, h, ih]

theorem getField_mem {l : List (String × Json)} {k : String} {v : Json}
    (h : getField l k = some v) : (k, v) ∈ l := by
  induction l with
  | nil => simp [getField] at h
  | cons p rest ih =>
    by_cases hk : p.1 = k
    · rw [show p = (p.1, p.2) from rfl, hk]
      simp [getField, hk] at h
      simp [h]
    · simp [getField, hk] at h
      exact List.mem_cons_of_mem _ (ih h)

theorem getField_setField_self (l : List (String × Json)) (k : String) (v : Json) :
    getField (setField l k v) k = some v := by
  induction l with
  | nil => simp [setField, getField]
  | cons p rest ih =>
    by_cases h : p.1 = k <;> simp [setField, getField, h, ih]

theorem getField_setField_ne (l : List (String × Json)) (k k' : String) (v : Json)
    (h : k ≠ k') : getField (setField l k v) k' = getField l k' := by
  induction l with
  | nil => simp [setField, getField, h]
  | cons p rest ih =>
    by_cases hp : p.1 = k
    · simp [setField, hp, getField, h]
    · simp only [setField, hp, if_false, getField]
      by_cases hq : p.1 = k' <;> simp [hq, ih]

theorem setField_eq_of_get {l : List (String × Json)} {k : String} {v : Json}
    (h : getField l k = some v) : setField l k v = l := by
  induction l with
  | nil => simp [getField] at h
  | cons p rest ih =>
    obtain ⟨pk, pv⟩ := p
    by_cases hk : pk = k
    · simp [getField, hk] at h
      simp [setField, hk, ← h]
    · simp [getField, hk] at h
      simp [setField, hk, ih h]

theorem mapField_cons (pk : String) (pv : Json) (rest : List (String × Json))
    (k : String) (f : Json → Json) :
    mapField ((pk, pv) :: rest) k f =
      (if pk = k then (pk, f pv) else (pk, pv)) :: mapField rest k f := by
  simp [mapField]

theorem getField_mapField_self (l : List (String × Json)) (k : String) (f : Json → Json) :
    getField (mapField l k f) k = (getField l k).map f := by
  induction l with
  | nil => simp [mapField, getField]
  | cons p rest ih =>
    obtain ⟨pk, pv⟩ := p
    rw [mapField_cons]
    by_cases h : pk = k
    · rw [if_pos h]
      subst h
      simp [getField]
    · rw [if_neg h]
      simp [getField, h, ih]

theorem getField_mapField_ne (l : List (String × Json)) (k k' : String) (f : Json → Json)
    (h : k' ≠ k) : getField (mapField l k f) k' = getField l k' := by
  induction l with
  | nil => simp [mapField, getField]
  | cons p rest ih =>
    obtain ⟨pk, pv⟩ := p
    rw [mapField_cons]
    by_cases hp : pk = k
    · have hne : pk ≠ k' := by rw [hp]; exact fun hh => h hh.symm
      rw [if_pos hp]
      subst hp
      simp [getField, hne, ih]
    · rw [if_neg hp]
      by_cases hq : pk = k' <;> simp [getField, hp, hq, ih]

theorem length_mapField (l : List (String × Json)) (k : String) (f : Json → Json) :
    (mapField l k f).length = l.length := by
  simp [mapField]

theorem isPrefixOf_self_append (l t : List Char) : l.isPrefixOf (l ++ t) = true :=
  List.isPrefixOf_iff_prefix.2 (List.prefix_append l t)

theorem containsSub_of_isPrefix {pat t : List Char} (h : pat.isPrefixOf t = true) :
    containsSub pat t = true := by
  cases t with
  | nil =>
    cases pat with
    | nil => rfl
    | cons c r => simp [List.isPrefixOf] at h
  | cons c r => simp [containsSub, h]

theorem containsSub_append_left (a : List Char) {pat t : List Char}
    (h : containsSub pat t = true) : containsSub pat (a ++ t) = true := by
  induction a with
  | nil => simpa using h
  | cons c r ih => simp [containsSub, ih]

theorem strContains_middle (a m b : String) :
    strContains (a ++ m ++ b) m = true := by
  show containsSub m.toList (a ++ m ++ b).toList = true
  have hd : (a ++ m ++ b).toList = a.toList ++ (m.toList ++ b.toList) := by
    simp [String.toList, String.data_append]
  rw [hd]
  exact containsSub_append_left _
    (containsSub_of_isPrefix (isPrefixOf_self_append m.toList b.toList))

theorem lastN_of_le {l : List Turn} {n : Nat} (h : l.length ≤ n) :
    lastN n l = l := by
  unfold lastN
  rw [Nat.sub_eq_zero_of_le h, List.drop_zero]

theorem lastN_drop {l : List Turn} {j n : Nat} (h : j + n ≤ l.length) :
    lastN n (l.drop j) = lastN n l := by
  unfold lastN
  rw [List.drop_drop, List.length_drop]
  congr 1
  omega

theorem lastN_append_lastN (n : Nat) (xs ys : List Turn) :
    lastN n (lastN n xs ++ ys) = lastN n (xs ++ ys) := by
  by_cases h : xs.length ≤ n
  · rw [lastN_of_le h]
  · show lastN n (xs.drop (xs.length - n) ++ ys) = lastN n (xs ++ ys)
    rw [← List.drop_append_of_le_length (by omega : xs.length - n ≤ xs.length)]
    exact lastN_drop (by rw [List.length_append]; omega)

theorem getContext_update_self (m : Ctxs) (sid u a : String) :
    getContext (updateChatContext m sid u a) sid =
      lastN 10 (getContext m sid ++ [⟨"user", u⟩, ⟨"assistant", a⟩]) := by
  unfold updateChatContext getContext
  simp only [if_pos rfl, Option.getD_some]
  split
  · rfl
  · next h =>
    rw [lastN_of_le (Nat.le_of_not_lt h)]

theorem getContext_update_ne (m : Ctxs) (sid s u a : String) (h : s ≠ sid) :
    getContext (updateChatContext m sid u a) s = getContext m s := by
  unfold updateChatContext getContext
  simp [h]

theorem mem_optSection {name : String} {o : Option Json} {k : String} {v : Json}
    (h : (k, v) ∈ optSection name o) : k = name ∧ o = some v := by
  cases o with
  | none => simp [optSection] at h
  | some u =>
    simp [optSection] at h
    exact ⟨h.1, by rw [h.2]⟩

theorem listSectionSearch_ok_some {terms : List String} {o : Option Json} {v : Json}
    (h : listSectionSearch terms o = .ok (some v)) :
    ∃ l, v = Json.arr l ∧ l ≠ [] ∧
      ∀ e ∈ l, containsTerms (unitText e) terms = true := by
  cases o with
  | none => simp [listSectionSearch] at h
  | some j =>
    cases j with
    | str s => simp [listSectionSearch] at h
    | num n => simp [listSectionSearch] at h
    | bool b => simp [listSectionSearch] at h
    | null => simp [listSectionSearch] at h
    | obj fs => simp [listSectionSearch] at h
    | arr xs =>
      simp only [listSectionSearch] at h
      split at h
      · next hlen =>
        injection h with h1
        injection h1 with h2
        refine ⟨filterMatches terms xs, h2.symm, ?_, ?_⟩
        · intro hnil
          rw [hnil] at hlen
          simp at hlen
        · intro e he
          exact (List.mem_filter.1 he).2
      · simp at h

theorem searchCore_ok_mem {q : String} {fields r : List (String × Json)}
    (hsc : searchCore q fields = .ok r) {k : String} {v : Json}
    (hm : (k, v) ∈ r) :
    (k = "biography" ∧ containsTerms (unitText v) (searchTermsOf q) = true) ∨
    ((k = "skills" ∨ k = "projects" ∨ k = "experience") ∧
      ∃ l, v = Json.arr l ∧ l ≠ [] ∧
        ∀ e ∈ l, containsTerms (unitText e) (searchTermsOf q) = true) ∨
    k = "preferences" := by
  unfold searchCore at hsc
  cases hbio : getField fields "biography" with
  | none => rw [hbio] at hsc; simp at hsc
  | some bio =>
    rw [hbio] at hsc
    cases hsk : listSectionSearch (searchTermsOf q) (getField fields "skills") with
    | error e => rw [hsk] at hsc; simp at hsc
    | ok skills =>
      rw [hsk] at hsc
      cases hpr : listSectionSearch (searchTermsOf q) (getField fields "projects") with
      | error e => rw [hpr] at hsc; simp at hsc
      | ok projects =>
        rw [hpr] at hsc
        cases hex : listSectionSearch (searchTermsOf q) (getField fields "experience") with
        | error e => rw [hex] at hsc; simp at hsc
        | ok experience =>
          rw [hex] at hsc
          simp only [Except.ok.injEq] at hsc
          subst hsc
          simp only [List.mem_append] at hm
          rcases hm with ((((hA | hB) | hC) | hD) | hE)
          · by_cases hc : containsTerms (unitText bio) (searchTermsOf q) = true
            · rw [if_pos hc] at hA
              simp at hA
              exact .inl ⟨hA.1, by rw [hA.2]; exact hc⟩
            · rw [if_neg hc] at hA
              simp at hA
          · obtain ⟨hk, ho⟩ := mem_optSection hB
            rw [ho] at hsk
            exact .inr (.inl ⟨.inl hk, listSectionSearch_ok_some hsk⟩)
          · obtain ⟨hk, ho⟩ := mem_optSection hC
            rw [ho] at hpr
            exact .inr (.inl ⟨.inr (.inl hk), listSectionSearch_ok_some hpr⟩)
          · obtain ⟨hk, ho⟩ := mem_optSection hD
            rw [ho] at hex
            exact .inr (.inl ⟨.inr (.inr hk), listSectionSearch_ok_some hex⟩)
          · exact .inr (.inr (mem_optSection hE).1)

theorem search_keys_only (q : String) (data : Json) (k : String)
    (h1 : k ≠ "biography") (h2 : k ≠ "skills") (h3 : k ≠ "projects")
    (h4 : k ≠ "experience") (h5 : k ≠ "preferences") :
    getField (objFields (searchRelevantData q data)) k = none := by
  cases hg : getField (objFields (searchRelevantData q data)) k with
  | none => rfl
  | some v =>
    exfalso
    cases data with
    | obj fields =>
      simp only [searchRelevantData] at hg
      cases hsc : searchCore q fields with
      | error e => rw [hsc] at hg; simp [objFields, getField] at hg
      | ok r =>
        rw [hsc] at hg
        simp only [objFields] at hg
        rcases searchCore_ok_mem hsc (getField_mem hg) with ⟨hk, _⟩ | ⟨hk, _⟩ | hk
        · exact h1 hk
        · rcases hk with hk | hk | hk
          · exact h2 hk
          · exact h3 hk
          · exact h4 hk
        · exact h5 hk
    | str s => simp [searchRelevantData, objFields, getField] at hg
    | num n => simp [searchRelevantData, objFields, getField] at hg
    | bool b => simp [searchRelevantData, objFields, getField] at hg
    | null => simp [searchRelevantData, objFields, getField] at hg
    | arr xs => simp [searchRelevantData, objFields, getField] at hg

/-! ## Claim theorems: relevance search (C1, C9) -/

/-- C1, counterexample: the claim states that for an empty query the token
set is empty and nothing is returned except the always-included preferences.
In the code, `"".split(' ')` is `[""]` and every string contains `""`, so the
empty query matches every searched section: on `sampleStore` the search
returns the `biography` section, which is not `preferences` and contains
none of the (zero) whitespace-delimited tokens of the empty query. -/
theorem c1_counterexample :
    specTokens "" = [] ∧
    getField (objFields (searchRelevantData "" sampleStore)) "biography"
      = some sampleBio ∧
    containsTerms (unitText sampleBio) (specTokens "") = false := by
  exact ⟨rfl, rfl, rfl⟩

/-- C1 (amended): every list entry or section returned by
`searchRelevantData(Q, P)`, other than the always-included `preferences`,
contains (case-insensitively, in its JSON-serialized text) at least one
element of `Q.toLowerCase().split(' ')` — the code's term list, which
differs from the spec's whitespace-delimited token set in that it splits
only at single spaces and keeps empty terms, an empty term matching
everything (hence the empty query returns every present section). -/
theorem c1_search_containment (q : String) (data : Json) (name : String) (v : Json)
    (hname : name ≠ "preferences")
    (h : getField (objFields (searchRelevantData q data)) name = some v) :
    containsTerms (unitText v) (searchTermsOf q) = true ∨
    ∃ l, v = Json.arr l ∧ l ≠ [] ∧
      ∀ e ∈ l, containsTerms (unitText e) (searchTermsOf q) = true := by
  cases data with
  | obj fields =>
    simp only [searchRelevantData] at h
    cases hsc : searchCore q fields with
    | error e => rw [hsc] at h; simp [objFields, getField] at h
    | ok r =>
      rw [hsc] at h
      simp only [objFields] at h
      rcases searchCore_ok_mem hsc (getField_mem h) with ⟨_, hc⟩ | ⟨_, hl⟩ | hp
      · exact .inl hc
      · exact .inr hl
      · exact absurd hp hname
  | str s => simp [searchRelevantData, objFields, getField] at h
  | num n => simp [searchRelevantData, objFields, getField] at h
  | bool b => simp [searchRelevantData, objFields, getField] at h
  | null => simp [searchRelevantData, objFields, getField] at h
  | arr xs => simp [searchRelevantData, objFields, getField] at h

/-- Witness for C1 (amended): querying "react" against `sampleStore` returns
the `skills` section, whose single entry contains the term "react". -/
theorem c1_search_containment_witness :
    containsTerms (unitText (Json.arr [sampleSkill])) (searchTermsOf "react") = true ∨
    ∃ l, Json.arr [sampleSkill] = Json.arr l ∧ l ≠ [] ∧
      ∀ e ∈ l, containsTerms (unitText e) (searchTermsOf "react") = true :=
  c1_search_containment "react" sampleStore "skills" (Json.arr [sampleSkill])
    (by decide) rfl

/-- C9: for every query and every stored document, the search result
contains neither the `education` section nor the `socialLinks` section —
`searchRelevantData` never consults them. -/
theorem c9_search_exclusion (q : String) (data : Json) :
    getField (objFields (searchRelevantData q data)) "education" = none ∧
    getField (objFields (searchRelevantData q data)) "socialLinks" = none :=
  ⟨search_keys_only q data "education" (by decide) (by decide) (by decide)
      (by decide) (by decide),
   search_keys_only q data "socialLinks" (by decide) (by decide) (by decide)
      (by decide) (by decide)⟩

/-! ## Claim theorems: context window and chat handler (C2, C3, C6) -/

theorem getContext_appendExchanges (sid : String) (pairs : List (String × String))
    (m : Ctxs) (hne : pairs ≠ []) :
    getContext (appendExchanges m sid pairs) sid =
      lastN 10 (getContext m sid ++ exchangeList pairs) := by
  induction pairs generalizing m with
  | nil => exact absurd rfl hne
  | cons p rest ih =>
    obtain ⟨u, a⟩ := p
    cases rest with
    | nil =>
      show getContext (updateChatContext m sid u a) sid = _
      rw [getContext_update_self]
      simp [exchangeList, exchangeTurns]
    | cons q rest2 =>
      show getContext (appendExchanges (updateChatContext m sid u a) sid (q :: rest2)) sid = _
      rw [ih (updateChatContext m sid u a) (by simp), getContext_update_self,
        lastN_append_lastN]
      simp [exchangeList, exchangeTurns]

theorem exchangeList_length (pairs : List (String × String)) :
    (exchangeList pairs).length = 2 * pairs.length := by
  induction pairs with
  | nil => rfl
  | cons p rest ih =>
    simp [exchangeList, exchangeTurns, ih]
    omega

/-- C6: `append` adds exactly the two turns (user then assistant, in that
order) to the session, capping at the 10 most recent; and after N ≥ 6
appends to one fresh session, `get` returns exactly the 10 most recent
turns of the pushed sequence, in original order (hence exactly 10 turns). -/
theorem c6_context_cap :
    (∀ (m : Ctxs) (sid u a : String),
      getContext (updateChatContext m sid u a) sid =
        lastN 10 (getContext m sid ++ [⟨"user", u⟩, ⟨"assistant", a⟩])) ∧
    (∀ (sid : String) (pairs : List (String × String)), 6 ≤ pairs.length →
      getContext (appendExchanges emptyCtxs sid pairs) sid =
        lastN 10 (exchangeList pairs) ∧
      (getContext (appendExchanges emptyCtxs sid pairs) sid).length = 10) := by
  refine ⟨getContext_update_self, ?_⟩
  intro sid pairs h
  have hne : pairs ≠ [] := by
    intro hh
    rw [hh] at h
    simp at h
  have hget := getContext_appendExchanges sid pairs emptyCtxs hne
  have hempty : getContext emptyCtxs sid = [] := rfl
  rw [hempty, List.nil_append] at hget
  refine ⟨hget, ?_⟩
  rw [hget]
  unfold lastN
  rw [List.length_drop]
  have := exchangeList_length pairs
  omega

/-- Witness for C6: six exchanges on a fresh session leave exactly the 10
most recent turns. -/
theorem c6_context_cap_witness :
    getContext (appendExchanges emptyCtxs "s" sixExchanges) "s" =
      lastN 10 (exchangeList sixExchanges) ∧
    (getContext (appendExchanges emptyCtxs "s" sixExchanges) "s").length = 10 :=
  c6_context_cap.2 "s" sixExchanges (by decide)

/-- C2: on the success path of a non-demo chat request, the handler stores
the (user message, assistant reply) pair in the Context Window of the
session and the returned `contextLength` is the history length **before**
that append, for every prior session state. -/
theorem c2_success_contextlength (geminiKey : Option String)
    (llm : String → Except String String) (store : Json) (ctxs : Ctxs)
    (msg : String) (sessionId : Option String) (inc : Option Bool)
    (prompt reply : String)
    (hkey : geminiUnconfigured geminiKey = false) (hmsg : msg ≠ "")
    (hprompt : createPersonalizedPrompt msg
      (if inc.getD true then searchRelevantData msg store else .obj [])
      (getContext ctxs (sessionId.getD "default")) = .ok prompt)
    (hllm : llm prompt = .ok reply) :
    (chatPost geminiKey llm store ctxs (some msg) sessionId inc).2
        = updateChatContext ctxs (sessionId.getD "default") msg reply ∧
    getField (objFields (chatPost geminiKey llm store ctxs (some msg) sessionId inc).1)
        "contextLength"
        = some (.num (getContext ctxs (sessionId.getD "default")).length) ∧
    getContext ((chatPost geminiKey llm store ctxs (some msg) sessionId inc).2)
        (sessionId.getD "default")
      = lastN 10 (getContext ctxs (sessionId.getD "default")
          ++ [⟨"user", msg⟩, ⟨"assistant", reply⟩]) := by
  have hrun : chatPost geminiKey llm store ctxs (some msg) sessionId inc =
      (chatOkBody reply (sessionId.getD "default")
        ((inc.getD true) && decide (0 < (objFields
          (if inc.getD true then searchRelevantData msg store else .obj [])).length))
        (getContext ctxs (sessionId.getD "default")).length,
       updateChatContext ctxs (sessionId.getD "default") msg reply) := by
    have hcore : chatPost geminiKey llm store ctxs (some msg) sessionId inc
        = chatPostCore geminiKey llm store ctxs msg sessionId inc := rfl
    rw [hcore]
    unfold chatPostCore
    rw [if_neg hmsg, hkey]
    simp only [Bool.false_eq_true, if_false, hprompt, hllm]
  rw [hrun]
  exact ⟨rfl, rfl, getContext_update_self ctxs (sessionId.getD "default") msg reply⟩

/-- Witness for C2: a configured key, a store, a session with one prior
exchange (2 turns): the reply is appended and `contextLength` is the
pre-append length 2. -/
theorem c2_success_contextlength_witness :
    (chatPost (some "key") fixedLlm sampleStore preCtxs (some "hi") (some "s1")
        (some true)).2 = updateChatContext preCtxs "s1" "hi" "Hi" ∧
    getField (objFields (chatPost (some "key") fixedLlm sampleStore preCtxs
        (some "hi") (some "s1") (some true)).1) "contextLength"
      = some (.num 2) ∧
    getContext ((chatPost (some "key") fixedLlm sampleStore preCtxs (some "hi")
        (some "s1") (some true)).2) "s1"
      = lastN 10 (getContext preCtxs "s1" ++ [⟨"user", "hi"⟩, ⟨"assistant", "Hi"⟩]) := by
  have h := c2_success_contextlength (some "key") fixedLlm sampleStore preCtxs
    "hi" (some "s1") (some true) samplePrompt "Hi" rfl (by decide) rfl rfl
  exact h

/-- C3 (amended): with no credential configured the handler short-circuits
into demo mode: the response body echoes the input message, has
`isDemo = true` and `personalDataAvailable = false` — but **no**
`personalDataUsed` field — and the session map is returned untouched. -/
theorem c3_demo_mode (geminiKey : Option String) (llm : String → Except String String)
    (store : Json) (ctxs : Ctxs) (msg : String) (sessionId : Option String)
    (inc : Option Bool)
    (hkey : geminiUnconfigured geminiKey = true) (hmsg : msg ≠ "") :
    chatPost geminiKey llm store ctxs (some msg) sessionId inc = (demoBody msg, ctxs) ∧
    getField (objFields (demoBody msg)) "isDemo" = some (.bool true) ∧
    getField (objFields (demoBody msg)) "personalDataAvailable" = some (.bool false) ∧
    getField (objFields (demoBody msg)) "personalDataUsed" = none ∧
    strContains (demoResponseText msg) msg = true := by
  refine ⟨?_, rfl, rfl, rfl, ?_⟩
  · have hcore : chatPost geminiKey llm store ctxs (some msg) sessionId inc
        = chatPostCore geminiKey llm store ctxs msg sessionId inc := rfl
    rw [hcore]
    unfold chatPostCore
    rw [if_neg hmsg, hkey]
    simp
  · exact strContains_middle
      "Hello! I\x27m your personalized AI assistant. You said: \"" msg
      "\". \n        \nTo enable full AI capabilities with personalized responses, please:\n1. Get a free API key from Google AI Studio (https://makersuite.google.com/app/apikey)\n2. Add GEMINI_API_KEY=your_api_key_here to your .env file\n3. Optionally add PERSONAL_DATA_API_KEY=your_secure_key for data protection\n4. Restart the server\n\nYou can still use the personal data management API to add your information!"

/-- Witness for C3 (amended), scenario C: unset credential, message "hello",
fresh session map — demo body, map untouched (so session "s1" reads empty). -/
theorem c3_demo_mode_witness :
    chatPost none fixedLlm sampleStore emptyCtxs (some "hello") (some "s1")
        (some true) = (demoBody "hello", emptyCtxs) ∧
    strContains (demoResponseText "hello") "hello" = true := by
  have h := c3_demo_mode none fixedLlm sampleStore emptyCtxs "hello" (some "s1")
    (some true) rfl (by decide)
  exact ⟨h.1, h.2.2.2.2⟩

/-- C3 counterexample: the claim says the demo response carries
`personalDataUsed = false`; the demo body as returned has **no**
`personalDataUsed` field at all (only `personalDataAvailable`). -/
theorem c3_counterexample :
    getField (objFields ((chatPost none fixedLlm sampleStore emptyCtxs
        (some "hello") (some "s1") (some true)).1)) "isDemo" = some (.bool true) ∧
    getField (objFields ((chatPost none fixedLlm sampleStore emptyCtxs
        (some "hello") (some "s1") (some true)).1)) "personalDataUsed" = none :=
  ⟨rfl, rfl⟩

/-! ## Claim theorems: profile store writes (C4, C5, C7, C10) -/

/-- C4 counterexample: the claim says `writeSection` applies `write`'s
validation contract, so a skills value with an out-of-enum proficiency
should fail and persist nothing. `updateSection` actually succeeds and
persists the value — the very value `validateDoc` (the `write` contract)
rejects with a `proficiency` error. -/
theorem c4_counterexample :
    (updateSection "skills" bogusSkills "NOW" sampleStore).1 = .ok bogusSkills ∧
    getField (objFields (updateSection "skills" bogusSkills "NOW" sampleStore).2)
      "skills" = some bogusSkills ∧
    validateDoc 0 (.obj [("skills", bogusSkills)])
      = .error "\"skills[0].proficiency\" must be one of [beginner, intermediate, advanced, expert]" :=
  ⟨rfl, rfl, rfl⟩

/-- C4 (amended): `updateSection(name, value)` performs **no** validation:
it stores the supplied value as-is under any section name (well-formed or
not), replaces only that section, and touches `metadata.updatedAt`;
the rest of the document is untouched and not re-validated. -/
theorem c4_write_section (name : String) (value : Json) (now : String)
    (fs mfs : List (String × Json))
    (hmeta : getField (setField fs name value) "metadata" = some (.obj mfs)) :
    ∃ fs3, updateSection name value now (.obj fs)
        = (.ok ((getField fs3 name).getD .null), .obj fs3) ∧
      (∀ k, k ≠ name → k ≠ "metadata" → getField fs3 k = getField fs k) ∧
      (name ≠ "metadata" → getField fs3 name = some value) := by
  refine ⟨setField (setField fs name value) "metadata"
      (.obj (setField mfs "updatedAt" (.str now))), ?_, ?_, ?_⟩
  · have hred : updateSection name value now (.obj fs)
        = updateSectionFields name value now fs := rfl
    rw [hred]
    unfold updateSectionFields
    rw [hmeta]
  · intro k hk1 hk2
    rw [getField_setField_ne _ _ _ _ (fun hh => hk2 hh.symm),
      getField_setField_ne _ _ _ _ (fun hh => hk1 hh.symm)]
  · intro hne
    rw [getField_setField_ne _ _ _ _ (fun hh => hne hh.symm),
      getField_setField_self]

/-- Witness for C4 (amended): storing the invalid skills value through
`updateSection` on `sampleStore`. -/
theorem c4_write_section_witness :
    ∃ fs3, updateSection "skills" bogusSkills "NOW" (.obj (objFields sampleStore))
        = (.ok ((getField fs3 "skills").getD .null), .obj fs3) ∧
      (∀ k, k ≠ "skills" → k ≠ "metadata" → getField fs3 k = getField (objFields sampleStore) k) ∧
      ("skills" ≠ "metadata" → getField fs3 "skills" = some bogusSkills) :=
  c4_write_section "skills" bogusSkills "NOW" (objFields sampleStore)
    (metaFields sampleStore) rfl

/-- C5: a document failing schema validation makes `updateData` throw
`Validation error: <first detail>` and leaves the stored document
untouched (no partial write); a proficiency outside the enumerated set is
such a failure, rejected with a message carrying the offending field's
path — concretely, Scenario E's `proficiency: "bogus"` yields
`"skills[0].proficiency" must be one of [beginner, intermediate, advanced,
expert]`. -/
theorem c5_validation_abort :
    (∀ (nowMillis : Int) (now : String) (uuids : Nat → String)
        (doc store : Json) (msg : String),
      validateDoc nowMillis doc = .error msg →
      updateData nowMillis now uuids doc store
        = (.error ("Validation error: " ++ msg), store)) ∧
    (∀ (vals : List String) (path p : String), vals.contains p = false →
      vEnum vals path (.str p)
        = .error (quoted path ++ " must be one of ["
            ++ String.intercalate ", " vals ++ "]")) ∧
    (∀ nowMillis : Int, validateDoc nowMillis (skillDocWith "bogus")
      = .error "\"skills[0].proficiency\" must be one of [beginner, intermediate, advanced, expert]") := by
  refine ⟨?_, ?_, fun _ => rfl⟩
  · intro nowMillis now uuids doc store msg h
    unfold updateData
    rw [h]
  · intro vals path p hp
    have hred : vEnum vals path (.str p)
        = (if vals.contains p = true then .ok (.str p)
           else .error (quoted path ++ " must be one of ["
             ++ String.intercalate ", " vals ++ "]")) := rfl
    rw [hred, hp]
    rfl

/-- Witness for C5: Scenario E end to end — the bogus-proficiency document
aborts the write with the proficiency-path message and `sampleStore` is
unchanged. -/
theorem c5_validation_abort_witness :
    updateData 0 "NOW" uuidFix (skillDocWith "bogus") sampleStore
      = (.error ("Validation error: "
          ++ "\"skills[0].proficiency\" must be one of [beginner, intermediate, advanced, expert]"),
         sampleStore) ∧
    vEnum proficiencyValues "skills[0].proficiency" (.str "bogus")
      = .error (quoted "skills[0].proficiency" ++ " must be one of ["
          ++ String.intercalate ", " proficiencyValues ++ "]") := by
  refine ⟨c5_validation_abort.1 0 "NOW" uuidFix (skillDocWith "bogus") sampleStore _ rfl, ?_⟩
  exact c5_validation_abort.2.1 proficiencyValues "skills[0].proficiency" "bogus" rfl

theorem vObjWith_ok_obj {specs : List FieldSpec} {path : String} {j v : Json}
    (h : vObjWith specs path j = .ok v) : ∃ fs, v = .obj fs := by
  cases j with
  | obj fs =>
    replace h : vObjFields specs path fs = .ok v := h
    unfold vObjFields at h
    split at h
    · cases h
    · split at h
      · cases h
      · injection h with h1
        exact ⟨_, h1.symm⟩
  | str s => simp [vObjWith] at h
  | num n => simp [vObjWith] at h
  | bool b => simp [vObjWith] at h
  | null => simp [vObjWith] at h
  | arr xs => simp [vObjWith] at h

theorem metaFields_stamp (now : String) (d : List (String × Json)) :
    metaFields (.obj (stampMetadata now d)) =
      setField (setField (match getField d "metadata" with
        | some (.obj mfs) => mfs
        | _ => []) "updatedAt" (.str now)) "version" (.str "1.0.0") := by
  unfold metaFields stampMetadata objFields
  rw [getField_setField_self]
  rfl

/-- C10: after every successful whole-document write, the stored document's
`metadata.version` is the constant "1.0.0", whatever version (if any) the
caller supplied — the write overwrites it unconditionally. -/
theorem c10_version (nowMillis : Int) (now : String) (uuids : Nat → String)
    (doc store v st' : Json)
    (h : updateData nowMillis now uuids doc store = (.ok v, st')) :
    getField (metaFields st') "version" = some (.str "1.0.0") := by
  unfold updateData at h
  cases hv : validateDoc nowMillis doc with
  | error msg => rw [hv] at h; simp at h
  | ok value =>
    rw [hv] at h
    obtain ⟨fs, hfs⟩ := vObjWith_ok_obj hv
    subst hfs
    have h2 : ((Except.ok (Json.obj (stampMetadata now
        ((["skills", "projects", "socialLinks", "experience", "education"].foldl
          (fun st n => assignSectionIds uuids n st) (fs, 0)).1))) : Except String Json),
        Json.obj (stampMetadata now
        ((["skills", "projects", "socialLinks", "experience", "education"].foldl
          (fun st n => assignSectionIds uuids n st) (fs, 0)).1))) = (.ok v, st') := h
    have hst : st' = Json.obj (stampMetadata now
        ((["skills", "projects", "socialLinks", "experience", "education"].foldl
          (fun st n => assignSectionIds uuids n st) (fs, 0)).1)) :=
      (Prod.mk.injEq _ _ _ _ ▸ h2).2.symm
    rw [hst, metaFields_stamp, getField_setField_self]

/-- Witness for C10: a successful write of a document carrying version
"2.0.0" still stores version "1.0.0". -/
theorem c10_version_witness :
    getField (metaFields (updateData 0 "NOW" uuidFix versionedStore
      versionedStore).2) "version" = some (.str "1.0.0") :=
  c10_version 0 "NOW" uuidFix versionedStore versionedStore _ _ rfl

theorem assignEntry_id {uuids : Nat → String} {c : Nat} {e : Json}
    (he : entryHasId e = true) : assignEntry uuids c e = (e, c) := by
  cases e with
  | obj fs =>
    replace he : (match getField fs "id" with
        | some v => jsTruthy v
        | none => false) = true := he
    have hred : assignEntry uuids c (Json.obj fs)
        = (match getField fs "id" with
           | some v =>
             if jsTruthy v then (Json.obj (setField fs "id" v), c)
             else (Json.obj (setField fs "id" (.str (uuids c))), c + 1)
           | none => (Json.obj (setField fs "id" (.str (uuids c))), c + 1)) := rfl
    cases hid : getField fs "id" with
    | none =>
      rw [hid] at he
      exact Bool.noConfusion he
    | some v =>
      rw [hid] at he
      replace he : jsTruthy v = true := he
      rw [hred, hid]
      show (if jsTruthy v = true then (Json.obj (setField fs "id" v), c)
            else (Json.obj (setField fs "id" (Json.str (uuids c))), c + 1))
          = (Json.obj fs, c)
      rw [if_pos he, setField_eq_of_get hid]
  | str s => rfl
  | num n => rfl
  | bool b => rfl
  | null => rfl
  | arr xs => rfl

theorem assignIds_id {uuids : Nat → String} {xs : List Json}
    (h : xs.all entryHasId = true) (c : Nat) : assignIds uuids c xs = (xs, c) := by
  induction xs generalizing c with
  | nil => rfl
  | cons e rest ih =>
    simp only [List.all_cons, Bool.and_eq_true] at h
    obtain ⟨he, hrest⟩ := h
    show ((assignEntry uuids c e).1
        :: (assignIds uuids (assignEntry uuids c e).2 rest).1,
      (assignIds uuids (assignEntry uuids c e).2 rest).2) = (e :: rest, c)
    rw [assignEntry_id he]
    rw [show ((e, c) : Json × Nat).2 = c from rfl, ih hrest c]

theorem assignSectionIds_id {uuids : Nat → String} {name : String}
    {fs : List (String × Json)} (h : sectionIdsOk fs name = true) (c : Nat) :
    assignSectionIds uuids name (fs, c) = (fs, c) := by
  show assignSectionIdsAux uuids name fs c = (fs, c)
  unfold assignSectionIdsAux
  replace h : (match getField fs name with
      | some (.arr xs) => xs.all entryHasId
      | _ => true) = true := h
  cases hg : getField fs name with
  | none => rfl
  | some v =>
    rw [hg] at h
    cases v with
    | arr xs =>
      replace h : xs.all entryHasId = true := h
      show (setField fs name (.arr (assignIds uuids c xs).1),
        (assignIds uuids c xs).2) = (fs, c)
      rw [assignIds_id h c]
      show (setField fs name (.arr xs), c) = (fs, c)
      rw [setField_eq_of_get hg]
    | str s => rfl
    | num n => rfl
    | bool b => rfl
    | null => rfl
    | obj o => rfl

theorem metaFields_match (fs : List (String × Json)) :
    (match getField fs "metadata" with
     | some (.obj mfs) => mfs
     | _ => []) = metaFields (.obj fs) := by
  unfold metaFields objFields
  cases hg : getField fs "metadata" with
  | none => rfl
  | some v => cases v <;> rfl

/-- C7 (amended): re-saving the document returned by `read()` through
`write()` yields a stored document identical in every field — including
list-entry ids and `metadata.createdAt` — except `metadata.updatedAt` and
`metadata.version`, the latter being stamped to the constant "1.0.0"
(so it too is unchanged exactly when the stored version already was
"1.0.0", which holds for every document that was stored by `write`).
Hypotheses: the stored document validates to itself (stored documents are
serialized validated values) and its list entries already carry ids
(assigned on first write). -/
theorem c7_resave (nowMillis : Int) (now : String) (uuids : Nat → String)
    (doc store : Json)
    (hval : validateDoc nowMillis doc = .ok doc)
    (hids : docHasIds doc = true) :
    ∃ dfs, updateData nowMillis now uuids doc store = (.ok (.obj dfs), .obj dfs) ∧
      (∀ k, k ≠ "metadata" → getField dfs k = getField (objFields doc) k) ∧
      (∀ k, k ≠ "updatedAt" → k ≠ "version" →
        getField (metaFields (.obj dfs)) k = getField (metaFields doc) k) ∧
      getField (metaFields (.obj dfs)) "version" = some (.str "1.0.0") ∧
      getField (metaFields (.obj dfs)) "updatedAt" = some (.str now) := by
  obtain ⟨fs, hfs⟩ := vObjWith_ok_obj hval
  subst hfs
  refine ⟨stampMetadata now fs, ?_, ?_, ?_, ?_, ?_⟩
  · have hrun : updateData nowMillis now uuids (Json.obj fs) store
        = (.ok (Json.obj (stampMetadata now
            ((["skills", "projects", "socialLinks", "experience", "education"].foldl
              (fun st n => assignSectionIds uuids n st) (fs, 0)).1))),
           Json.obj (stampMetadata now
            ((["skills", "projects", "socialLinks", "experience", "education"].foldl
              (fun st n => assignSectionIds uuids n st) (fs, 0)).1))) := by
      unfold updateData
      rw [hval]
    unfold docHasIds at hids
    simp only [objFields, Bool.and_eq_true] at hids
    obtain ⟨⟨⟨⟨hA, hB⟩, hC⟩, hD⟩, hE⟩ := hids
    have hfold : (["skills", "projects", "socialLinks", "experience", "education"].foldl
        (fun st n => assignSectionIds uuids n st) (fs, 0)) = (fs, 0) := by
      simp only [List.foldl_cons, List.foldl_nil]
      rw [assignSectionIds_id hA 0, assignSectionIds_id hB 0,
        assignSectionIds_id hC 0, assignSectionIds_id hD 0,
        assignSectionIds_id hE 0]
    rw [hfold] at hrun
    exact hrun
  · intro k hk
    simp only [objFields, stampMetadata]
    rw [getField_setField_ne _ _ _ _ (fun hh => hk hh.symm)]
  · intro k h1 h2
    rw [metaFields_stamp,
      getField_setField_ne _ _ _ _ (fun hh => h2 hh.symm),
      getField_setField_ne _ _ _ _ (fun hh => h1 hh.symm),
      metaFields_match]
  · rw [metaFields_stamp, getField_setField_self]
  · rw [metaFields_stamp,
      getField_setField_ne _ _ _ _ (by decide), getField_setField_self]

/-- Witness for C7 (amended): re-saving `sampleStore` (a stored, validated
document with ids and version "1.0.0") changes only the metadata stamp. -/
theorem c7_resave_witness :
    ∃ dfs, updateData 0 "NOW" uuidFix sampleStore sampleStore
        = (.ok (.obj dfs), .obj dfs) ∧
      (∀ k, k ≠ "metadata" → getField dfs k = getField (objFields sampleStore) k) ∧
      (∀ k, k ≠ "updatedAt" → k ≠ "version" →
        getField (metaFields (.obj dfs)) k = getField (metaFields sampleStore) k) ∧
      getField (metaFields (.obj dfs)) "version" = some (.str "1.0.0") ∧
      getField (metaFields (.obj dfs)) "updatedAt" = some (.str "NOW") :=
  c7_resave 0 "NOW" uuidFix sampleStore sampleStore rfl rfl

/-- C7 counterexample: the claim promises `metadata.version` (among all
fields other than `metadata.updatedAt`) survives a re-save. A stored
document with version "2.0.0" — reachable through the unvalidated
`updateSection("metadata", ...)` — validates (any string version is legal),
yet re-saving it through `updateData` rewrites the version to "1.0.0". -/
theorem c7_counterexample :
    getField (metaFields versionedStore) "version" = some (.str "2.0.0") ∧
    getField (metaFields ((updateData 0 "NOW" uuidFix versionedStore
        versionedStore).2)) "version" = some (.str "1.0.0") ∧
    validateDoc 0 versionedStore = .ok versionedStore :=
  ⟨rfl, rfl, rfl⟩

/-! ## Claim theorems: prompt composer (C8) -/

theorem lastN_lastN (n : Nat) (l : List Turn) : lastN n (lastN n l) = lastN n l := by
  apply lastN_of_le
  show (l.drop (l.length - n)).length ≤ n
  rw [List.length_drop]
  omega

theorem historyBlock_lastN (history : List Turn) :
    historyBlock (lastN 4 history) = historyBlock history := by
  unfold historyBlock
  have hlen : (lastN 4 history).length = history.length - (history.length - 4) := by
    show (history.drop (history.length - 4)).length = _
    rw [List.length_drop]
  by_cases h : history.length > 0
  · rw [if_pos h, if_pos (show (lastN 4 history).length > 0 by omega), lastN_lastN]
  · rw [if_neg h, if_neg (show ¬ (lastN 4 history).length > 0 by omega)]

theorem strContains_of_data {s m : String} (x y : List Char)
    (h : s.data = x ++ (m.data ++ y)) : strContains s m = true := by
  show containsSub m.data s.data = true
  rw [h]
  exact containsSub_append_left _
    (containsSub_of_isPrefix (isPrefixOf_self_append _ _))

theorem concatAll_split {l : List Turn} {t : Turn} (h : t ∈ l) :
    ∃ a b : String, concatAll (l.map renderTurn) = a ++ (renderTurn t ++ b) := by
  induction l with
  | nil => cases h
  | cons x rest ih =>
    cases h with
    | head => exact ⟨"", concatAll (rest.map renderTurn), rfl⟩
    | tail _ hm =>
      obtain ⟨a, b, hab⟩ := ih hm
      refine ⟨renderTurn x ++ a, b, ?_⟩
      show renderTurn x ++ concatAll (rest.map renderTurn) = _
      rw [hab, String.append_assoc]

theorem bioBlock_trunc (pc : List (String × Json)) :
    bioBlock (truncCaps pc) = bioBlock pc := by
  unfold bioBlock
  rw [show getField (truncCaps pc) "biography" = getField pc "biography" from by
    unfold truncCaps
    rw [getField_mapField_ne (mapField pc "projects" (capField 5)) "experience"
        "biography" (capField 3) (by decide),
      getField_mapField_ne pc "projects" "biography" (capField 5) (by decide)]]

theorem preferencesBlock_trunc (pc : List (String × Json)) :
    preferencesBlock (truncCaps pc) = preferencesBlock pc := by
  unfold preferencesBlock
  rw [show getField (truncCaps pc) "preferences" = getField pc "preferences" from by
    unfold truncCaps
    rw [getField_mapField_ne (mapField pc "projects" (capField 5)) "experience"
        "preferences" (capField 3) (by decide),
      getField_mapField_ne pc "projects" "preferences" (capField 5) (by decide)]]

theorem listBlock_capField (v? : Option Json) (header : String) (cap : Nat)
    (hcap : ¬ cap = 0) (render : Json → Except Unit String) :
    listBlock (v?.map (capField cap)) header cap render
      = listBlock v? header cap render := by
  cases v? with
  | none => rfl
  | some v =>
    cases v with
    | arr xs =>
      show listBlock (some (.arr (xs.take cap))) header cap render
          = listBlock (some (.arr xs)) header cap render
      simp only [listBlock, jsTruthy, if_true]
      simp only [if_neg hcap, List.take_take, Nat.min_self, List.length_take]
      by_cases hx : 0 < xs.length
      · rw [if_pos (lt_min_iff.mpr ⟨Nat.pos_of_ne_zero hcap, hx⟩), if_pos hx]
      · have h0 : xs.length = 0 := by omega
        rw [h0, Nat.min_zero]
    | str s => rfl
    | num n => rfl
    | bool b => rfl
    | null => rfl
    | obj o => rfl

theorem personalBlock_trunc (pc : List (String × Json)) :
    personalBlock (truncCaps pc) = personalBlock pc := by
  unfold personalBlock
  rw [show (truncCaps pc).length = pc.length from by
      unfold truncCaps mapField; simp,
    show getField (truncCaps pc) "skills" = getField pc "skills" from by
      unfold truncCaps
      rw [getField_mapField_ne (mapField pc "projects" (capField 5)) "experience"
          "skills" (capField 3) (by decide),
        getField_mapField_ne pc "projects" "skills" (capField 5) (by decide)],
    show getField (truncCaps pc) "projects" = (getField pc "projects").map (capField 5) from by
      unfold truncCaps
      rw [getField_mapField_ne (mapField pc "projects" (capField 5)) "experience"
          "projects" (capField 3) (by decide),
        getField_mapField_self pc "projects" (capField 5)],
    show getField (truncCaps pc) "experience" = (getField pc "experience").map (capField 3) from by
      unfold truncCaps
      rw [getField_mapField_self (mapField pc "projects" (capField 5)) "experience" (capField 3),
        getField_mapField_ne pc "projects" "experience" (capField 5) (by decide)],
    listBlock_capField (getField pc "projects") "\nRecent Projects:\n" 5 (by decide) renderProject,
    listBlock_capField (getField pc "experience") "\nWork Experience:\n" 3 (by decide) renderExperience,
    bioBlock_trunc, preferencesBlock_trunc]

theorem except_ok_of_isOk {r : Except Unit String} (h : r.isOk = true) :
    ∃ s, r = .ok s := by
  cases r with
  | error e => cases h
  | ok s => exact ⟨s, rfl⟩

theorem renderAll_ok (render : Json → Except Unit String) (xs : List Json)
    (h : ∀ e ∈ xs, ∃ s, render e = .ok s) : ∃ s, renderAll render xs = .ok s := by
  induction xs with
  | nil => exact ⟨"", rfl⟩
  | cons e rest ih =>
    obtain ⟨s, hs⟩ := h e (List.mem_cons_self e rest)
    obtain ⟨t, ht⟩ := ih (fun e' he' => h e' (List.mem_cons_of_mem _ he'))
    refine ⟨s ++ t, ?_⟩
    simp only [renderAll, hs, ht]
    rfl

theorem renderSkill_ok {e : Json} (h : entryNotNull e = true) :
    ∃ s, renderSkill e = .ok s := by
  cases e with
  | null => exact Bool.noConfusion h
  | obj fs => exact ⟨_, rfl⟩
  | str s => exact ⟨_, rfl⟩
  | num n => exact ⟨_, rfl⟩
  | bool b => exact ⟨_, rfl⟩
  | arr xs => exact ⟨_, rfl⟩

theorem renderExperience_ok {e : Json} (h : entryNotNull e = true) :
    ∃ s, renderExperience e = .ok s := by
  cases e with
  | null => exact Bool.noConfusion h
  | obj fs => exact ⟨_, rfl⟩
  | str s => exact ⟨_, rfl⟩
  | num n => exact ⟨_, rfl⟩
  | bool b => exact ⟨_, rfl⟩
  | arr xs => exact ⟨_, rfl⟩

theorem projectTech_ok {fs : List (String × Json)}
    (h : wfProjectEntry (.obj fs) = true) : ∃ s, projectTech (.obj fs) = .ok s := by
  replace h : (match getField fs "technologies" with
      | some (.arr _) => true
      | some v => !jsTruthy v
      | none => true) = true := h
  cases hg : getField fs "technologies" with
  | none => exact ⟨"", by simp only [projectTech, jsGet, hg]⟩
  | some t =>
    rw [hg] at h
    cases t with
    | arr xs => exact ⟨_, by simp only [projectTech, jsGet, hg, jsTruthy, if_true]; rfl⟩
    | str s =>
      simp only [Bool.not_eq_true'] at h
      exact ⟨"", by simp only [projectTech, jsGet, hg, h]; rfl⟩
    | num n =>
      simp only [Bool.not_eq_true'] at h
      exact ⟨"", by simp only [projectTech, jsGet, hg, h]; rfl⟩
    | bool b =>
      simp only [Bool.not_eq_true'] at h
      exact ⟨"", by simp only [projectTech, jsGet, hg, h]; rfl⟩
    | null => exact ⟨"", by simp only [projectTech, jsGet, hg]; rfl⟩
    | obj o =>
      simp only [Bool.not_eq_true'] at h
      exact ⟨"", by simp only [projectTech, jsGet, hg, h]; rfl⟩

theorem renderProject_ok {e : Json} (h : wfProjectEntry e = true) :
    ∃ s, renderProject e = .ok s := by
  cases e with
  | null => exact Bool.noConfusion h
  | obj fs =>
    obtain ⟨t, ht⟩ := projectTech_ok h
    exact ⟨_, by simp only [renderProject, ht]; rfl⟩
  | str s => exact ⟨_, rfl⟩
  | num n => exact ⟨_, rfl⟩
  | bool b => exact ⟨_, rfl⟩
  | arr xs => exact ⟨_, rfl⟩

theorem listBlock_ok {v? : Option Json} {wfE : Json → Bool}
    {render : Json → Except Unit String}
    (hw : wfSection v? wfE = true)
    (hr : ∀ e, wfE e = true → ∃ s, render e = .ok s)
    (header : String) (cap : Nat) :
    ∃ s, listBlock v? header cap render = .ok s := by
  cases v? with
  | none => exact ⟨"", rfl⟩
  | some v =>
    cases v with
    | arr xs =>
      replace hw : xs.all wfE = true := hw
      obtain ⟨b, hb⟩ := renderAll_ok render
        (if cap = 0 then xs else xs.take cap)
        (fun e he => hr e (by
          rw [List.all_eq_true] at hw
          refine hw e ?_
          by_cases hc : cap = 0
          · rw [if_pos hc] at he; exact he
          · rw [if_neg hc] at he; exact List.mem_of_mem_take he))
      by_cases hl : xs.length > 0
      · exact ⟨header ++ b, by
          simp only [listBlock, jsTruthy, if_true, if_pos hl, hb]; rfl⟩
      · exact ⟨"", by simp only [listBlock, jsTruthy, if_true, if_neg hl]⟩
    | str s =>
      replace hw : decide (s = "") = true := hw
      rw [decide_eq_true_iff] at hw
      subst hw
      exact ⟨"", rfl⟩
    | num n => exact ⟨"", by simp only [listBlock]; split <;> rfl⟩
    | bool b => exact ⟨"", by simp only [listBlock]; split <;> rfl⟩
    | null => exact ⟨"", rfl⟩
    | obj o => exact ⟨"", by simp only [listBlock]; split <;> rfl⟩

theorem joinLine_ok {p : Json} {k : String} (h : joinSafe p k = true) (label : String) :
    ∃ s, joinLine p k label = .ok s := by
  replace h : (match jsGet p k with
      | some (.arr _) => true
      | some v => !jsTruthy v
      | none => true) = true := h
  cases hg : jsGet p k with
  | none => exact ⟨"", by simp only [joinLine, hg]⟩
  | some v =>
    rw [hg] at h
    cases v with
    | arr xs => exact ⟨_, by simp only [joinLine, hg, jsTruthy, if_true]; rfl⟩
    | str s =>
      simp only [Bool.not_eq_true'] at h
      exact ⟨"", by simp only [joinLine, hg, h]; rfl⟩
    | num n =>
      simp only [Bool.not_eq_true'] at h
      exact ⟨"", by simp only [joinLine, hg, h]; rfl⟩
    | bool b =>
      simp only [Bool.not_eq_true'] at h
      exact ⟨"", by simp only [joinLine, hg, h]; rfl⟩
    | null => exact ⟨"", by simp only [joinLine, hg]; rfl⟩
    | obj o =>
      simp only [Bool.not_eq_true'] at h
      exact ⟨"", by simp only [joinLine, hg, h]; rfl⟩

theorem preferencesBlock_ok {pc : List (String × Json)}
    (h : wfPrefs (getField pc "preferences") = true) :
    ∃ s, preferencesBlock pc = .ok s := by
  cases hg : getField pc "preferences" with
  | none => exact ⟨"", by simp only [preferencesBlock, hg]⟩
  | some p =>
    rw [hg] at h
    replace h : (!jsTruthy p || (joinSafe p "interests" && joinSafe p "goals")) = true := h
    by_cases ht : jsTruthy p = true
    · rw [ht] at h
      simp only [Bool.not_true, Bool.false_or, Bool.and_eq_true] at h
      obtain ⟨s1, h1⟩ := joinLine_ok h.1 "- Interests: "
      obtain ⟨s2, h2⟩ := joinLine_ok h.2 "- Goals: "
      exact ⟨_, by simp only [preferencesBlock, hg, ht, if_true, h1, h2]; rfl⟩
    · have hf : jsTruthy p = false := by
        revert ht; cases jsTruthy p <;> simp
      exact ⟨"", by simp only [preferencesBlock, hg, hf]; rfl⟩

theorem personalBlock_ok {pc : List (String × Json)}
    (h : wfPersonalContext pc = true) : ∃ s, personalBlock pc = .ok s := by
  replace h : (wfSection (getField pc "skills") entryNotNull
      && wfSection (getField pc "projects") wfProjectEntry
      && wfSection (getField pc "experience") entryNotNull
      && wfPrefs (getField pc "preferences")) = true := h
  simp only [Bool.and_eq_true] at h
  obtain ⟨⟨⟨hsk, hpr⟩, hex⟩, hpf⟩ := h
  obtain ⟨s1, h1⟩ := listBlock_ok hsk (fun e he => renderSkill_ok he) "\nSkills:\n" 0
  obtain ⟨s2, h2⟩ := listBlock_ok hpr (fun e he => renderProject_ok he)
    "\nRecent Projects:\n" 5
  obtain ⟨s3, h3⟩ := listBlock_ok hex (fun e he => renderExperience_ok he)
    "\nWork Experience:\n" 3
  obtain ⟨s4, h4⟩ := preferencesBlock_ok hpf
  by_cases hl : pc.length > 0
  · exact ⟨_, by simp only [personalBlock, if_pos hl, h1, h2, h3, h4]; rfl⟩
  · exact ⟨"", by simp only [personalBlock, if_neg hl]⟩

/-- C8 counterexample: the claim says composition always returns a string
and never fails. A stored project whose `technologies` is the truthy
non-array `5` (storable through the unvalidated `updateSection`) flows
through the relevance search (an empty query matches everything) into the
composer, where `technologies.join` throws a `TypeError`. -/
theorem c8_counterexample :
    createPersonalizedPrompt "hi" (searchRelevantData "" badTechStore) [] = .error () :=
  rfl

/-- C8 (amended): the composer reads only the first 5 projects, the first
3 experience entries and the last 4 history turns (truncating the inputs to
those prefixes/suffix leaves the output unchanged); on any personal context
whose list fields are genuine arrays (or absent/falsy) with non-null
entries and array-or-falsy `technologies`/`interests`/`goals`, composition
returns a string; and each of the last 4 history turns appears in the
output as a `role: content` line. (It can throw on a truthy non-array
field — see the counterexample.) -/
theorem c8_compose (userMessage : String) (pc : List (String × Json))
    (history : List Turn) :
    createPersonalizedPrompt userMessage (.obj (truncCaps pc)) history
      = createPersonalizedPrompt userMessage (.obj pc) history ∧
    createPersonalizedPrompt userMessage (.obj pc) (lastN 4 history)
      = createPersonalizedPrompt userMessage (.obj pc) history ∧
    (wfPersonalContext pc = true →
      ∃ s, createPersonalizedPrompt userMessage (.obj pc) history = .ok s) ∧
    (∀ s, createPersonalizedPrompt userMessage (.obj pc) history = .ok s →
      ∀ t ∈ lastN 4 history, strContains s (renderTurn t) = true) := by
  refine ⟨?_, ?_, ?_, ?_⟩
  · simp only [createPersonalizedPrompt]
    rw [personalBlock_trunc]
  · simp only [createPersonalizedPrompt]
    rw [historyBlock_lastN]
  · intro hw
    obtain ⟨p, hp⟩ := personalBlock_ok hw
    exact ⟨_, by simp only [createPersonalizedPrompt, hp]; rfl⟩
  · intro s hs t hm
    have hhist : history.length > 0 := by
      by_contra hc
      have h0 : history.length = 0 := by omega
      have : lastN 4 history = [] := by
        unfold lastN
        rw [List.eq_nil_of_length_eq_zero h0]
        rfl
      rw [this] at hm
      cases hm
    obtain ⟨a, b, hab⟩ := concatAll_split hm
    cases hpb : personalBlock pc with
    | error e =>
      rw [show createPersonalizedPrompt userMessage (.obj pc) history = .error e
        from by simp only [createPersonalizedPrompt, hpb]; rfl] at hs
      cases hs
    | ok personal =>
      have hs2 : s = promptPreamble ++ personal ++ historyBlock history
          ++ promptTail userMessage := by
        rw [show createPersonalizedPrompt userMessage (.obj pc) history
            = .ok (promptPreamble ++ personal ++ historyBlock history
              ++ promptTail userMessage)
          from by simp only [createPersonalizedPrompt, hpb]; rfl] at hs
        exact (Except.ok.injEq _ _ ▸ hs).symm
      apply strContains_of_data
        (promptPreamble.data ++ personal.data
          ++ ("\nRECENT CONVERSATION HISTORY:\n").data ++ a.data)
        (b.data ++ (promptTail userMessage).data)
      rw [hs2]
      unfold historyBlock
      rw [if_pos hhist, hab]
      simp only [String.data_append, List.append_assoc]

/-- Witness for C8 (amended): a search result over `sampleStore` is a
well-formed context, composition over the two-turn session history
succeeds, and the rendered `user: hello there` line appears in the
composed prompt. -/
theorem c8_compose_witness :
    (∃ s, createPersonalizedPrompt "hi"
      (.obj (objFields (searchRelevantData "hi" sampleStore)))
      (getContext preCtxs "s1") = .ok s) ∧
    strContains samplePrompt (renderTurn ⟨"user", "hello there"⟩) = true := by
  have h := c8_compose "hi" (objFields (searchRelevantData "hi" sampleStore))
    (getContext preCtxs "s1")
  exact ⟨h.2.2.1 rfl, h.2.2.2 samplePrompt rfl ⟨"user", "hello there"⟩ (by decide)⟩

end Cursor
